import Mathlib

/-
Verification development for the Tradingsignal repository (signal engine:
`src/lib/indicators.ts` and `src/lib/strategy.ts`).

The engine is JavaScript, so the embedding models the JavaScript value
domain explicitly: finite numbers are rationals (the recurrences in the
source are exact arithmetic expressions; we embed IEEE arithmetic on the
values actually reachable, which never requires rounding), plus NaN, the
two infinities, `null` and `undefined`.  JS arrays are modelled with their
index-assignment semantics: writing at an index beyond the current length
extends the array, writes at negative indices become plain properties that
later reads at the same negative index can observe, and out-of-range reads
yield `undefined`.

Strategy log lines (the `logs` field) and the two log-only computations in
`runStructuralReversalStrategy` (the 4h RSI, the 15m RSI/ATR values and the
BOS flags, which are printed but never used in any decision or returned
field) are not modelled; no claim concerns them.  Network fetches are
modelled by passing the fetched kline series as inputs.
-/

set_option maxHeartbeats 4000000
set_option maxRecDepth 200000

namespace TS

/-- A JavaScript value as it occurs in the indicator/strategy pipeline:
a finite number (exact rational), NaN, +Infinity, -Infinity, `null`
(the warm-up marker used by the indicator arrays) or `undefined`
(out-of-range array read). -/
inductive JSV where
  | num (q : ℚ)
  | nan
  | pinf
  | ninf
  | null
  | undef
deriving DecidableEq, Repr, Inhabited

/-- ToNumber coercion applied by JS arithmetic and comparison operators:
`null` becomes 0, `undefined` becomes NaN, numbers pass through. -/
def JSV.toArith : JSV → JSV
  | .null => .num 0
  | .undef => .nan
  | v => v

/-- JS addition. -/
def jAdd (a b : JSV) : JSV :=
  match a.toArith, b.toArith with
  | .num x, .num y => .num (x + y)
  | .num _, .pinf => .pinf
  | .num _, .ninf => .ninf
  | .pinf, .num _ => .pinf
  | .ninf, .num _ => .ninf
  | .pinf, .pinf => .pinf
  | .ninf, .ninf => .ninf
  | _, _ => .nan

/-- JS unary minus. -/
def jNeg (a : JSV) : JSV :=
  match a.toArith with
  | .num x => .num (-x)
  | .pinf => .ninf
  | .ninf => .pinf
  | _ => .nan

/-- JS subtraction (`x - y` behaves exactly as `x + (-y)`). -/
def jSub (a b : JSV) : JSV := jAdd a (jNeg b)

/-- JS multiplication. -/
def jMul (a b : JSV) : JSV :=
  match a.toArith, b.toArith with
  | .num x, .num y => .num (x * y)
  | .num x, .pinf => if x = 0 then .nan else if 0 < x then .pinf else .ninf
  | .num x, .ninf => if x = 0 then .nan else if 0 < x then .ninf else .pinf
  | .pinf, .num y => if y = 0 then .nan else if 0 < y then .pinf else .ninf
  | .ninf, .num y => if y = 0 then .nan else if 0 < y then .ninf else .pinf
  | .pinf, .pinf => .pinf
  | .ninf, .ninf => .pinf
  | .pinf, .ninf => .ninf
  | .ninf, .pinf => .ninf
  | _, _ => .nan

/-- JS division: division by zero gives a signed infinity, 0/0 gives NaN. -/
def jDiv (a b : JSV) : JSV :=
  match a.toArith, b.toArith with
  | .num x, .num y =>
      if y = 0 then (if x = 0 then .nan else if 0 < x then .pinf else .ninf)
      else .num (x / y)
  | .num _, .pinf => .num 0
  | .num _, .ninf => .num 0
  | .pinf, .num y => if 0 ≤ y then .pinf else .ninf
  | .ninf, .num y => if 0 ≤ y then .ninf else .pinf
  | _, _ => .nan

/-- JS Math.abs. -/
def jAbs (a : JSV) : JSV :=
  match a.toArith with
  | .num x => .num |x|
  | .pinf => .pinf
  | .ninf => .pinf
  | _ => .nan

/-- JS `<` comparison (false whenever NaN is involved). -/
def jLtB (a b : JSV) : Bool :=
  match a.toArith, b.toArith with
  | .num x, .num y => decide (x < y)
  | .num _, .pinf => true
  | .ninf, .num _ => true
  | .ninf, .pinf => true
  | _, _ => false

/-- JS `>` comparison. -/
def jGtB (a b : JSV) : Bool := jLtB b a

/-- JS binary Math.max (NaN if either argument is NaN). -/
def jMax (a b : JSV) : JSV :=
  match a.toArith, b.toArith with
  | .num x, .num y => .num (max x y)
  | .num _, .pinf => .pinf
  | .pinf, .num _ => .pinf
  | .num x, .ninf => .num x
  | .ninf, .num y => .num y
  | .pinf, .pinf => .pinf
  | .pinf, .ninf => .pinf
  | .ninf, .pinf => .pinf
  | .ninf, .ninf => .ninf
  | _, _ => .nan

/-- JS truthiness of a value (0, NaN, null and undefined are falsy). -/
def jTruthy : JSV → Bool
  | .num q => decide (q ≠ 0)
  | .pinf => true
  | .ninf => true
  | _ => false

/-- The `x || 0` idiom used by the strategies on popped indicator values. -/
def jor0 (v : JSV) : JSV := if jTruthy v then v else .num 0

/-- Extract the rational from a finite JS number.  In every place this is
applied by the strategy embedding the value is a finite number or has been
replaced by `num 0` via `jor0` (the `|| 0` guard in the source); the
non-finite branches are unreachable there and return 0. -/
def toQ : JSV → ℚ
  | .num q => q
  | _ => 0

/-- A JS array: a current length together with the (total) map from integer
indices to stored values.  Reads of never-written indices outside
`[0, len)` give `undefined`; writes at `len` or beyond extend the length;
writes at negative indices become properties that later reads observe. -/
structure JArr where
  len : Nat
  get : Int → JSV

/-- `new Array(n).fill(v)`. -/
def mkFilled (n : Nat) (v : JSV) : JArr :=
  ⟨n, fun i => if 0 ≤ i ∧ i < (n : Int) then v else .undef⟩

/-- JS index assignment `a[i] = v`. -/
def aset (a : JArr) (i : Int) (v : JSV) : JArr :=
  ⟨if (a.len : Int) ≤ i then i.toNat + 1 else a.len,
   fun j => if j = i then v else a.get j⟩

/-- JS index read `a[i]`. -/
def aread (a : JArr) (i : Int) : JSV := a.get i

/-- JS `a.pop()` (only the returned value is used by the source; the
mutated array is discarded immediately). -/
def apop (a : JArr) : JSV := if a.len = 0 then .undef else a.get ((a.len : Int) - 1)

/-- Read `data[i]` from a plain input array (no holes). -/
def dread (d : List JSV) (i : Int) : JSV :=
  if 0 ≤ i then d.getD i.toNat JSV.undef
  else JSV.undef

/-- The integer interval `[s, n)`, the index sequence of a JS
`for (let i = s; i < n; i++)` loop. -/
def intRange (s n : Int) : List Int := (List.range (n - s).toNat).map (fun k => s + Int.ofNat k)

/-- Run a JS `for (let i = s; i < n; i++)` loop over a state. -/
def forRange {σ : Type _} (s n : Int) (init : σ) (f : σ → Int → σ) : σ :=
  (intRange s n).foldl f init

/-- Resolve one argument of JS `Array.prototype.slice` against a length. -/
def jsliceIdx (n : Nat) (x : Int) : Nat :=
  if x < 0 then ((n : Int) + x).toNat else min x.toNat n

/-- JS `data.slice(a, b)` on a plain input array. -/
def jslice (d : List JSV) (a b : Int) : List JSV :=
  (d.take (jsliceIdx d.length b)).drop (jsliceIdx d.length a)

/-- `calculateSMA` from indicators.ts. -/
def calculateSMA (data : List JSV) (period : Nat) : JArr :=
  forRange ((period : Int) - 1) data.length (mkFilled data.length .null) (fun sma i =>
    let s := (jslice data (i - period + 1) (i + 1)).foldl jAdd (.num 0)
    aset sma i (jDiv s (.num period)))

/-- `calculateEMA` from indicators.ts. -/
def calculateEMA (data : List JSV) (period : Nat) : JArr :=
  if data.length < period then mkFilled data.length .null else
  let k : ℚ := 2 / ((period : ℚ) + 1)
  let s := forRange 0 period (JSV.num 0) (fun acc i => jAdd acc (dread data i))
  let e0 := aset (mkFilled data.length .null) ((period : Int) - 1) (jDiv s (.num period))
  forRange period data.length e0 (fun e i =>
    aset e i (jAdd (jMul (dread data i) (.num k)) (jMul (aread e (i - 1)) (.num (1 - k)))))

/-- The seed pass of `calculateRSI`: total gains and losses over the first
`period` deltas, divided by `period`. -/
def rsiSeed (data : List JSV) (period : Nat) : JSV × JSV :=
  let gl := forRange 1 ((period : Int) + 1) (JSV.num 0, JSV.num 0) (fun gl i =>
    let change := jSub (dread data i) (dread data (i - 1))
    if jGtB change (.num 0) then (jAdd gl.1 change, gl.2) else (gl.1, jSub gl.2 change))
  (jDiv gl.1 (.num period), jDiv gl.2 (.num period))

/-- The RSI value written for a given (avgGain, avgLoss) pair:
100 when the smoothed average loss is 0, else the Wilder formula. -/
def rsiValOf (gl : JSV × JSV) : JSV :=
  if gl.2 = .num 0 then .num 100
  else jSub (.num 100) (jDiv (.num 100) (jAdd (.num 1) (jDiv gl.1 gl.2)))

/-- One iteration of the Wilder-smoothing loop of `calculateRSI`; the state
is (avgGain, avgLoss, rsi array). -/
def rsiStep (data : List JSV) (period : Nat) (st : JSV × JSV × JArr) (i : Int) :
    JSV × JSV × JArr :=
  let change := jSub (dread data i) (dread data (i - 1))
  let gain := if jGtB change (.num 0) then change else .num 0
  let loss := if jLtB change (.num 0) then jNeg change else .num 0
  let avgGain := jDiv (jAdd (jMul st.1 (.num ((period : ℚ) - 1))) gain) (.num period)
  let avgLoss := jDiv (jAdd (jMul st.2.1 (.num ((period : ℚ) - 1))) loss) (.num period)
  (avgGain, avgLoss, aset st.2.2 i (rsiValOf (avgGain, avgLoss)))

/-- State (avgGain, avgLoss, rsi array) of `calculateRSI` after the
smoothing loop has processed all indices below `n` (the seed entry at
index `period` is already written). -/
def rsiStateAt (data : List JSV) (period : Nat) (n : Int) : JSV × JSV × JArr :=
  let ag := (rsiSeed data period).1
  let al := (rsiSeed data period).2
  let arr0 := aset (mkFilled data.length .null) (period : Int) (rsiValOf (ag, al))
  forRange ((period : Int) + 1) n (ag, al, arr0) (rsiStep data period)

/-- `calculateRSI` from indicators.ts. -/
def calculateRSI (data : List JSV) (period : Nat) : JArr :=
  if data.length < period then mkFilled data.length .null else
  (rsiStateAt data period data.length).2.2

/-- `calculateMACD` from indicators.ts; returns (macdLine, signalLine,
histogram). -/
def calculateMACD (data : List JSV) (fast slow signal : Nat) : JArr × JArr × JArr :=
  let fastEMA := calculateEMA data fast
  let slowEMA := calculateEMA data slow
  let macdLine := forRange 0 data.length (mkFilled data.length .null) (fun m i =>
    if aread fastEMA i ≠ .null ∧ aread slowEMA i ≠ .null then
      aset m i (jSub (aread fastEMA i) (aread slowEMA i)) else m)
  let validMacdLine := ((intRange 0 data.length).map (aread macdLine)).filter
    (fun v => v ≠ .null)
  let signalEMA := calculateEMA validMacdLine signal
  let offset : Int := (data.length : Int) - validMacdLine.length
  let signalLine := forRange 0 signalEMA.len (mkFilled data.length .null) (fun sl i =>
    aset sl (i + offset) (aread signalEMA i))
  let histogram := forRange 0 data.length (mkFilled data.length .null) (fun h i =>
    if aread macdLine i ≠ .null ∧ aread signalLine i ≠ .null then
      aset h i (jSub (aread macdLine i) (aread signalLine i)) else h)
  (macdLine, signalLine, histogram)

/-- JS Math.sqrt, parametrised by the square-root function on non-negative
rationals (the exact real square root is not rational; every theorem about
Bollinger bands below holds for every choice of `sqrtF`). -/
def jSqrt (sqrtF : ℚ → ℚ) (v : JSV) : JSV :=
  match v.toArith with
  | .num q => if q < 0 then .nan else .num (sqrtF q)
  | .pinf => .pinf
  | _ => .nan

/-- `calculateBollingerBands` from indicators.ts; returns (upper, lower,
middle). -/
def calculateBollingerBands (sqrtF : ℚ → ℚ) (data : List JSV) (period : Nat)
    (stdDev : ℚ) : JArr × JArr × JArr :=
  let sma := calculateSMA data period
  let ul := forRange ((period : Int) - 1) data.length
    (mkFilled data.length .null, mkFilled data.length .null) (fun ul i =>
      let sl := jslice data (i - period + 1) (i + 1)
      let mean := aread sma i
      let variance := jDiv (sl.foldl
        (fun acc val => jAdd acc (jMul (jSub val mean) (jSub val mean))) (.num 0))
        (.num period)
      let std := jSqrt sqrtF variance
      (aset ul.1 i (jAdd mean (jMul (.num stdDev) std)),
       aset ul.2 i (jSub mean (jMul (.num stdDev) std))))
  (ul.1, ul.2, sma)

/-- The true-range array built by `calculateATR`. -/
def atrTR (high low close : List JSV) : JArr :=
  forRange 1 close.length (mkFilled close.length (.num 0)) (fun tr i =>
    aset tr i (jMax (jMax (jSub (dread high i) (dread low i))
                          (jAbs (jSub (dread high i) (dread close (i - 1)))))
                    (jAbs (jSub (dread low i) (dread close (i - 1))))))

/-- `calculateATR` from indicators.ts. -/
def calculateATR (high low close : List JSV) (period : Nat) : JArr :=
  let tr := atrTR high low close
  let s := forRange 1 ((period : Int) + 1) (JSV.num 0) (fun s i => jAdd s (aread tr i))
  let atr0 := aset (mkFilled close.length .null) (period : Int) (jDiv s (.num period))
  forRange ((period : Int) + 1) close.length atr0 (fun a i =>
    aset a i (jDiv (jAdd (jMul (aread a (i - 1)) (.num ((period : ℚ) - 1))) (aread tr i))
                   (.num period)))

/-- The first loop of `calculateADX`: the (+DM, -DM, TR) arrays. -/
def adxDMTR (high low close : List JSV) : JArr × JArr × JArr :=
  forRange 1 close.length
    (mkFilled close.length (.num 0), mkFilled close.length (.num 0),
     mkFilled close.length (.num 0)) (fun st i =>
      let upMove := jSub (dread high i) (dread high (i - 1))
      let downMove := jSub (dread low (i - 1)) (dread low i)
      let pdm := if jGtB upMove downMove && jGtB upMove (.num 0) then upMove else .num 0
      let mdm := if jGtB downMove upMove && jGtB downMove (.num 0) then downMove else .num 0
      let trv := jMax (jMax (jSub (dread high i) (dread low i))
                            (jAbs (jSub (dread high i) (dread close (i - 1)))))
                      (jAbs (jSub (dread low i) (dread close (i - 1))))
      (aset st.1 i pdm, aset st.2.1 i mdm, aset st.2.2 i trv))

/-- The inner `smooth` helper of `calculateADX` (Wilder cumulative sum). -/
def adxSmooth (d : JArr) (p : Nat) : JArr :=
  let s := forRange 1 ((p : Int) + 1) (JSV.num 0) (fun s i => jAdd s (aread d i))
  let r0 := aset (mkFilled d.len .null) (p : Int) s
  forRange ((p : Int) + 1) d.len r0 (fun r i =>
    aset r i (jAdd (jSub (aread r (i - 1)) (jDiv (aread r (i - 1)) (.num p))) (aread d i)))

/-- `plusDI` as computed inside the DX loop of `calculateADX` (the smoothed
arrays are pure, so naming the recomputation is sound). -/
def adxPlusDI (high low close : List JSV) (p : Nat) (i : Int) : JSV :=
  jMul (jDiv (aread (adxSmooth (adxDMTR high low close).1 p) i)
             (aread (adxSmooth (adxDMTR high low close).2.2 p) i)) (.num 100)

/-- `minusDI` as computed inside the DX loop of `calculateADX`. -/
def adxMinusDI (high low close : List JSV) (p : Nat) (i : Int) : JSV :=
  jMul (jDiv (aread (adxSmooth (adxDMTR high low close).2.1 p) i)
             (aread (adxSmooth (adxDMTR high low close).2.2 p) i)) (.num 100)

/-- The value written into `dx[i]` by `calculateADX`. -/
def adxDXval (high low close : List JSV) (p : Nat) (i : Int) : JSV :=
  let diDiff := jAbs (jSub (adxPlusDI high low close p i) (adxMinusDI high low close p i))
  let diSum := jAdd (adxPlusDI high low close p i) (adxMinusDI high low close p i)
  if diSum = .num 0 then .num 0 else jMul (jDiv diDiff diSum) (.num 100)

/-- The DX array built inside `calculateADX`. -/
def adxDX (high low close : List JSV) (p : Nat) : JArr :=
  forRange (p : Int) close.length (mkFilled close.length .null) (fun dx i =>
    aset dx i (adxDXval high low close p i))

/-- `calculateADX` from indicators.ts. -/
def calculateADX (high low close : List JSV) (p : Nat) : JArr :=
  let dx := adxDX high low close p
  let dxSum := forRange (p : Int) (2 * (p : Int)) (JSV.num 0) (fun s i => jAdd s (aread dx i))
  let a0 := aset (mkFilled close.length .null) (2 * (p : Int) - 1) (jDiv dxSum (.num p))
  forRange (2 * (p : Int)) close.length a0 (fun a i =>
    aset a i (jDiv (jAdd (jMul (aread a (i - 1)) (.num ((p : ℚ) - 1))) (aread dx i))
                   (.num p)))

end TS

namespace TS

/-- One OHLC bar (the `time` field is never consulted by the engine and is
omitted). -/
structure Bar where
  bopen : ℚ
  bhigh : ℚ
  blow : ℚ
  bclose : ℚ
deriving DecidableEq, Repr, Inhabited

/-- JS `Math.max(...xs)` over a non-empty spread of numbers (the source
only spreads non-empty number arrays into Math.max; on `[]` the JS value
would be -Infinity, which the source never observes — see the strategy
definitions). -/
def listMaxQ : List ℚ → ℚ
  | [] => 0
  | h :: t => t.foldl max h

/-- JS `Math.min(...xs)` over a non-empty spread of numbers. -/
def listMinQ : List ℚ → ℚ
  | [] => 0
  | h :: t => t.foldl min h

def closesQ (ks : List Bar) : List ℚ := ks.map Bar.bclose
def highsQ (ks : List Bar) : List ℚ := ks.map Bar.bhigh
def lowsQ (ks : List Bar) : List ℚ := ks.map Bar.blow
def numsOf (l : List ℚ) : List JSV := l.map JSV.num

/-- The window `klines.slice(i - n, i + n + 1)` inspected by
`getSwingPoints` at index `i ≥ n`. -/
def swingWindow (klines : List Bar) (n i : Nat) : List Bar :=
  (klines.drop (i - n)).take (2 * n + 1)

/-- `highs[i]` as computed by `getSwingPoints`. -/
def swingHighFlag (klines : List Bar) (n i : Nat) : Bool :=
  decide (n ≤ i) && decide (i + n < klines.length) &&
    decide ((klines.getD i default).bhigh = listMaxQ ((swingWindow klines n i).map Bar.bhigh))

/-- `lows[i]` as computed by `getSwingPoints`. -/
def swingLowFlag (klines : List Bar) (n i : Nat) : Bool :=
  decide (n ≤ i) && decide (i + n < klines.length) &&
    decide ((klines.getD i default).blow = listMinQ ((swingWindow klines n i).map Bar.blow))

/-- `getSwingPoints` from strategy.ts (window half-width `n`). -/
def getSwingPoints (klines : List Bar) (n : Nat) : List Bool × List Bool :=
  ((List.range klines.length).map (swingHighFlag klines n),
   (List.range klines.length).map (swingLowFlag klines n))

/-- Result record of `detectTrend`. -/
structure TrendInfo where
  trend : String
  direction : Option String
  highs : List ℚ
  lows : List ℚ
deriving DecidableEq, Repr

/-- `klines.filter((_, i) => flags[i]).map(k => value k)`. -/
def flaggedVals (vals : List ℚ) (flags : List Bool) : List ℚ :=
  ((vals.zip flags).filter (fun p => p.2)).map (fun p => p.1)

/-- `detectTrend` from strategy.ts. -/
def detectTrend (klines : List Bar) (swingHighs swingLows : List Bool) : TrendInfo :=
  let highs := flaggedVals (highsQ klines) swingHighs
  let lows := flaggedVals (lowsQ klines) swingLows
  if highs.length < 2 ∨ lows.length < 2 then ⟨"RANGE", none, highs, lows⟩
  else
    let lastHighs := highs.drop (highs.length - 2)
    let lastLows := lows.drop (lows.length - 2)
    if lastHighs.getD 1 0 > lastHighs.getD 0 0 ∧ lastLows.getD 1 0 > lastLows.getD 0 0 then
      ⟨"BULLISH", some "UP", highs, lows⟩
    else if lastHighs.getD 1 0 < lastHighs.getD 0 0 ∧ lastLows.getD 1 0 < lastLows.getD 0 0 then
      ⟨"BEARISH", some "DOWN", highs, lows⟩
    else ⟨"RANGE", none, highs, lows⟩

/-- `findImpulse` from strategy.ts; returns (low, high) of the impulse leg. -/
def findImpulse (klines : List Bar) (swingHighs swingLows : List Bool)
    (direction : Option String) : Option (ℚ × ℚ) :=
  let highs := flaggedVals (highsQ klines) swingHighs
  let lows := flaggedVals (lowsQ klines) swingLows
  if highs.length = 0 ∨ lows.length = 0 then none
  else if direction = some "UP" then some (lows.getLast?.getD 0, highs.getLast?.getD 0)
  else if direction = some "DOWN" then some (lows.getLast?.getD 0, highs.getLast?.getD 0)
  else none

/-- `calculatePRZ` from strategy.ts; returns (prz_low, prz_high). -/
def calculatePRZ (low high : ℚ) (direction : Option String) : ℚ × ℚ :=
  let diff := high - low
  if direction = some "UP" then
    (high - diff * (786/1000), high - diff * (618/1000))
  else
    (low + diff * (618/1000), low + diff * (786/1000))

/-- `detectDivergence` from strategy.ts. -/
def detectDivergence (klines : List Bar) : Option String :=
  let rsi := calculateRSI (numsOf (closesQ klines)) 14
  let sw := getSwingPoints klines 3
  let lowPts := ((List.range klines.length).filter (fun i => sw.2.getD i false)).map
      (fun i => ((klines.getD i default).blow, aread rsi i))
  let highPts := ((List.range klines.length).filter (fun i => sw.1.getD i false)).map
      (fun i => ((klines.getD i default).bhigh, aread rsi i))
  if 2 ≤ lowPts.length ∧
     (lowPts.getD (lowPts.length - 1) default).1 < (lowPts.getD (lowPts.length - 2) default).1 ∧
     jGtB (lowPts.getD (lowPts.length - 1) default).2 (lowPts.getD (lowPts.length - 2) default).2
  then some "BULLISH_DIV"
  else if 2 ≤ highPts.length ∧
     (highPts.getD (highPts.length - 1) default).1 > (highPts.getD (highPts.length - 2) default).1 ∧
     jLtB (highPts.getD (highPts.length - 1) default).2 (highPts.getD (highPts.length - 2) default).2
  then some "BEARISH_DIV"
  else none

/-- `detectEngulfing` from strategy.ts; returns (bullish, bearish).  On
fewer than two bars the JS code dereferences `undefined` and throws. -/
def detectEngulfing (klines : List Bar) : Except Unit (Bool × Bool) :=
  if 2 ≤ klines.length then
    let last := klines.getD (klines.length - 1) default
    let prev := klines.getD (klines.length - 2) default
    .ok (decide (prev.bclose < prev.bopen ∧ last.bclose > last.bopen ∧
                 last.bclose > prev.bopen ∧ last.bopen < prev.bclose),
         decide (prev.bclose > prev.bopen ∧ last.bclose < last.bopen ∧
                 last.bopen > prev.bclose ∧ last.bclose < prev.bopen))
  else .error ()

/-- The regime classification of `runTrendRegimeStrategy` (lines 209-212 of
strategy.ts): first matching rule wins, default `WEAK_RANGE`. -/
def classifyRegime (adx : JSV) (slope : ℚ) : String :=
  if jGtB adx (.num 25) && decide (|slope| > 1/20) then "STRONG_TREND"
  else if jGtB adx (.num 20) then "WEAK_TREND"
  else if jLtB adx (.num 18) then "STRONG_RANGE"
  else "WEAK_RANGE"

/-- JS `String.prototype.includes`. -/
def strIncludes (s sub : String) : Bool :=
  (List.range (s.length + 1)).any (fun k => sub.toList.isPrefixOf (s.toList.drop k))

/-- Index of the latest bar (`klines.length - 1`). -/
def lastIdx (ks : List Bar) : Int := (ks.length : Int) - 1

/-- `currentAdx` of `runTrendRegimeStrategy`: the latest 4h ADX value with
the `|| 0` guard applied. -/
def trendRegimeAdx (k4 : List Bar) : JSV :=
  jor0 (aread (calculateADX (numsOf (highsQ k4)) (numsOf (lowsQ k4))
    (numsOf (closesQ k4)) 14) (lastIdx k4))

/-- `slope` of `runTrendRegimeStrategy`: percentage slope of the latest 4h
EMA200 step, 0 when the previous EMA value is falsy.  (Over rational bar
data the EMA entries are `null` or finite numbers, so the `toQ`
extractions are exact.) -/
def trendRegimeSlope (k4 : List Bar) : ℚ :=
  let ema := calculateEMA (numsOf (closesQ k4)) 200
  let currentEma := jor0 (aread ema (lastIdx k4))
  let prevEma := jor0 (aread ema (lastIdx k4 - 1))
  if jTruthy prevEma then (toQ currentEma - toQ prevEma) / toQ prevEma * 100 else 0

/-- The regime string computed by `runTrendRegimeStrategy` on the 4h data. -/
def trendRegime (k4 : List Bar) : String :=
  classifyRegime (trendRegimeAdx k4) (trendRegimeSlope k4)

/-- The latest 15m ATR of `runTrendRegimeStrategy` (with its `|| 0` guard;
ATR entries over rational bars are `null`, NaN or finite, never infinite,
so `toQ` is exact). -/
def trendAtr (k15 : List Bar) : ℚ :=
  toQ (jor0 (aread (calculateATR (numsOf (highsQ k15)) (numsOf (lowsQ k15))
    (numsOf (closesQ k15)) 14) (lastIdx k15)))

/-- The latest 15m close used as `price` by `runTrendRegimeStrategy`. -/
def trendPrice (k15 : List Bar) : ℚ := (closesQ k15).getD (k15.length - 1) 0

/-- The range-mode zones of `runTrendRegimeStrategy`:
(sell_low, sell_high, buy_low, buy_high). -/
def trendZones (symbol : String) (k15 : List Bar) : ℚ × ℚ × ℚ × ℚ :=
  let high20 := listMaxQ ((highsQ k15).drop (k15.length - 20))
  let low20 := listMinQ ((lowsQ k15).drop (k15.length - 20))
  let atr := trendAtr k15
  let eb := atr * (1/2)
  if symbol = "BTCUSDT" then
    (high20 - eb, high20 + eb, low20 - eb, low20 + eb)
  else
    (high20 - atr, high20 + atr * (8/10), low20 - atr, low20 + atr * (8/10))

/-- The signal record (the `logs` audit trail is not modelled). -/
structure StrategyResult where
  symbol : String
  regime : String
  price : ℚ
  direction : String
  entry_low : ℚ
  entry_high : ℚ
  stop : ℚ
  target : ℚ
  rr : JSV
deriving DecidableEq, Repr

/-- `runTrendRegimeStrategy` from strategy.ts, as a function of the fetched
4h and 15m series. -/
def runTrendRegimeStrategy (symbol : String) (k4 k15 : List Bar) :
    Option StrategyResult :=
  if k4.length < 200 ∨ k15.length < 50 then none else
  let regime := trendRegime k4
  let ema20 := calculateEMA (numsOf (closesQ k15)) 20
  let price := trendPrice k15
  let atr := trendAtr k15
  if strIncludes regime "TREND" then
    let dir : ℚ := if jGtB (.num price) (aread ema20 (lastIdx k15)) then 1 else -1
    let rr : ℚ := if regime = "STRONG_TREND" then 2 else 13/10
    let el := price - dir * atr * (8/10)
    let eh := price - dir * atr * (3/10)
    let stop := el - dir * atr * (1/2)
    let risk := |eh - stop|
    some ⟨symbol, regime, price, if dir = 1 then "LONG" else "SHORT",
          min el eh, max el eh, stop, eh + dir * risk * rr, .num rr⟩
  else if strIncludes regime "RANGE" then
    let z := trendZones symbol k15
    if |price - z.1| < |price - z.2.2.2| then
      let stop := z.2.1 + atr
      let risk := |z.2.1 - stop|
      some ⟨symbol, regime, price, "SHORT",
            min z.1 z.2.1, max z.1 z.2.1, stop, z.2.1 - risk * (3/2), .num (3/2)⟩
    else
      let stop := z.2.2.1 - atr
      let risk := |z.2.2.2 - stop|
      some ⟨symbol, regime, price, "LONG",
            min z.2.2.1 z.2.2.2, max z.2.2.1 z.2.2.2, stop, z.2.2.2 + risk * (3/2), .num (3/2)⟩
  else none

/-- Swing flags with the window `n = 3` used by the structural strategy. -/
def structSwings (ks : List Bar) : List Bool × List Bool := getSwingPoints ks 3

/-- The 4h trend info of `runStructuralReversalStrategy`. -/
def structTrend4 (k4 : List Bar) : TrendInfo :=
  detectTrend k4 (structSwings k4).1 (structSwings k4).2

/-- The 1h trend info of `runStructuralReversalStrategy`. -/
def structTrend1 (k1 : List Bar) : TrendInfo :=
  detectTrend k1 (structSwings k1).1 (structSwings k1).2

/-- `rangeHigh` of the liquidity-sweep mode: the last 4h swing high, or the
global high when no swing high exists. -/
def structRangeHigh (k4 : List Bar) : ℚ :=
  match (structTrend4 k4).highs.getLast? with
  | some h => h
  | none => listMaxQ (highsQ k4)

/-- `rangeLow` of the liquidity-sweep mode. -/
def structRangeLow (k4 : List Bar) : ℚ :=
  match (structTrend4 k4).lows.getLast? with
  | some l => l
  | none => listMinQ (lowsQ k4)

/-- The popped 4h ATR of the liquidity-sweep mode (with its `|| 0` guard). -/
def structAtr4 (k4 : List Bar) : ℚ :=
  toQ (jor0 (apop (calculateATR (numsOf (highsQ k4)) (numsOf (lowsQ k4))
    (numsOf (closesQ k4)) 14)))

/-- The last close of a series (`klines[klines.length - 1].close`); the
strategies only evaluate it after establishing the series is non-empty. -/
def lastClose (ks : List Bar) : ℚ := (ks.getLast?.getD default).bclose

/-- The impulse / PRZ / 15m-confirmation tail of
`runStructuralReversalStrategy` (everything after the liquidity-sweep
branch), with the active timeframe, trend and direction already chosen. -/
def structuralStage2 (symbol : String) (active k15 : List Bar) (trend : String)
    (direction : Option String) (sh sl : List Bool) : Except Unit StrategyResult :=
  match findImpulse active sh sl direction with
  | none =>
    match active.getLast? with
    | none => .error ()
    | some b => .ok ⟨symbol, "NO_IMPULSE", b.bclose, "LONG", 0, 0, 0, 0, .num 0⟩
  | some impulse =>
    let prz := calculatePRZ impulse.1 impulse.2 direction
    match k15.getLast? with
    | none => .error ()
    | some b15 =>
      let price := b15.bclose
      let div := detectDivergence k15
      match detectEngulfing k15 with
      | .error e => .error e
      | .ok eng =>
        let isInPRZ := decide (price ≥ min prz.1 prz.2 ∧ price ≤ max prz.1 prz.2)
        let waiting : Except Unit StrategyResult :=
          .ok ⟨symbol, if isInPRZ then "PRZ_WAITING_SIGNAL" else "WAITING_FOR_PRZ", price,
               if direction = some "UP" then "LONG" else "SHORT", prz.1, prz.2,
               if direction = some "UP" then impulse.1 else impulse.2,
               if direction = some "UP" then impulse.2 else impulse.1, .num 0⟩
        if direction = some "UP" ∧ isInPRZ = true then
          if div = some "BULLISH_DIV" ∨ eng.1 = true then
            .ok ⟨symbol, "PRZ_REVERSAL_" ++ trend, price, "LONG", prz.1, prz.2,
                 impulse.1, impulse.2,
                 jDiv (.num (impulse.2 - price)) (.num (price - impulse.1))⟩
          else waiting
        else if direction = some "DOWN" ∧ isInPRZ = true then
          if div = some "BEARISH_DIV" ∨ eng.2 = true then
            .ok ⟨symbol, "PRZ_REVERSAL_" ++ trend, price, "SHORT", prz.1, prz.2,
                 impulse.2, impulse.1,
                 jDiv (.num (price - impulse.1)) (.num (impulse.2 - price))⟩
          else waiting
        else waiting

/-- `runStructuralReversalStrategy` from strategy.ts, as a function of the
fetched 4h, 1h and 15m series.  `Except.error` marks the inputs on which
the JS code throws (dereferencing the last element of an empty series, or
`detectEngulfing` on fewer than two bars); `runStrategy` catches these. -/
def runStructuralReversalStrategy (symbol : String) (k4 k1 k15 : List Bar) :
    Except Unit StrategyResult :=
  let t4 := structTrend4 k4
  if t4.trend = "RANGE" then
    let t1 := structTrend1 k1
    if t1.trend = "RANGE" then
      let rangeHigh := structRangeHigh k4
      let rangeLow := structRangeLow k4
      match k4.getLast? with
      | none => .error ()
      | some lastBar =>
        let price := lastBar.bclose
        let atr := structAtr4 k4
        if |price - rangeHigh| < atr then
          .ok ⟨symbol, "LIQUIDITY_SWEEP_HIGH", price, "SHORT",
               rangeHigh - atr * (1/2), rangeHigh + atr * (1/2), rangeHigh + atr,
               rangeLow, jDiv (.num (rangeHigh - rangeLow)) (.num atr)⟩
        else if |price - rangeLow| < atr then
          .ok ⟨symbol, "LIQUIDITY_SWEEP_LOW", price, "LONG",
               rangeLow - atr * (1/2), rangeLow + atr * (1/2), rangeLow - atr,
               rangeHigh, jDiv (.num (rangeHigh - rangeLow)) (.num atr)⟩
        else
          .ok ⟨symbol, "RANGE_WAITING", price, "LONG", 0, 0, 0, 0, .num 0⟩
    else
      structuralStage2 symbol k1 k15 t1.trend t1.direction
        (structSwings k1).1 (structSwings k1).2
  else
    structuralStage2 symbol k4 k15 t4.trend t4.direction
      (structSwings k4).1 (structSwings k4).2

/-- `runStrategy` from strategy.ts: dispatch on the strategy id, catching
any strategy exception and converting it to `null`.  The fetches of the
two strategies are independent inputs (`k4t`,`k15t` for trend-regime,
`k4s`,`k1s`,`k15s` for structural-reversal). -/
def runStrategy (symbol strategyId : String) (k4t k15t k4s k1s k15s : List Bar) :
    Option StrategyResult :=
  if strategyId = "structural_reversal" then
    match runStructuralReversalStrategy symbol k4s k1s k15s with
    | .ok r => some r
    | .error _ => none
  else runTrendRegimeStrategy symbol k4t k15t

/-- `entry_low` of an optional result (0 for `null`). -/
def resEntryLow (o : Option StrategyResult) : ℚ := (o.map StrategyResult.entry_low).getD 0

/-- `entry_high` of an optional result (0 for `null`). -/
def resEntryHigh (o : Option StrategyResult) : ℚ := (o.map StrategyResult.entry_high).getD 0

/-- regime of a structural-reversal outcome ("ERROR" when the JS code threw). -/
def eresRegime (e : Except Unit StrategyResult) : String :=
  match e with
  | .ok r => r.regime
  | .error _ => "ERROR"

/-- direction of a structural-reversal outcome. -/
def eresDirection (e : Except Unit StrategyResult) : String :=
  match e with
  | .ok r => r.direction
  | .error _ => "ERROR"

/-- entry_low of a structural-reversal outcome. -/
def eresEntryLow (e : Except Unit StrategyResult) : ℚ :=
  match e with
  | .ok r => r.entry_low
  | .error _ => 0

/-- entry_high of a structural-reversal outcome. -/
def eresEntryHigh (e : Except Unit StrategyResult) : ℚ :=
  match e with
  | .ok r => r.entry_high
  | .error _ => 0

end TS

deriving instance DecidableEq for Except

namespace TS

theorem intRange_eq_nil {s n : Int} (h : n ≤ s) : intRange s n = [] := by
  unfold intRange
  have h0 : (n - s).toNat = 0 := by omega
  rw [h0]
  rfl

theorem intRange_succ {s n : Int} (h : s ≤ n) : intRange s (n + 1) = intRange s n ++ [n] := by
  unfold intRange
  have h1 : (n + 1 - s).toNat = (n - s).toNat + 1 := by omega
  have h2 : s + Int.ofNat (n - s).toNat = n := by
    simp only [Int.ofNat_eq_coe]
    omega
  rw [h1, List.range_succ]
  simp [h2]
  omega

theorem forRange_eq_init {σ : Type _} {s n : Int} (h : n ≤ s) (init : σ) (f : σ → Int → σ) :
    forRange s n init f = init := by
  unfold forRange
  rw [intRange_eq_nil h]
  rfl

theorem forRange_succ {σ : Type _} {s n : Int} (h : s ≤ n) (init : σ) (f : σ → Int → σ) :
    forRange s (n + 1) init f = f (forRange s n init f) n := by
  unfold forRange
  rw [intRange_succ h, List.foldl_append]
  rfl

theorem forRange_inv {σ : Type _} {s : Int} {P : Int → σ → Prop} {f : σ → Int → σ}
    {init : σ} :
    ∀ {n : Int}, s ≤ n → P s init →
      (∀ st i, s ≤ i → i < n → P i st → P (i + 1) (f st i)) →
      P n (forRange s n init f) := by
  suffices key : ∀ (k : Nat) (n : Int), s ≤ n → n = s + (k : Int) → P s init →
      (∀ st i, s ≤ i → i < n → P i st → P (i + 1) (f st i)) →
      P n (forRange s n init f) by
    intro n hsn h0 hstep
    exact key (n - s).toNat n hsn (by omega) h0 hstep
  intro k
  induction k with
  | zero =>
      intro n hsn hn h0 _
      have hns : n = s := by omega
      subst hns
      rw [forRange_eq_init le_rfl]
      exact h0
  | succ m ih =>
      intro n hsn hn h0 hstep
      have hns : n = s + (m : Int) + 1 := by omega
      subst hns
      have hsm : s ≤ s + (m : Int) := by omega
      rw [forRange_succ hsm]
      refine hstep _ (s + (m : Int)) hsm (by omega) ?_
      exact ih (s + (m : Int)) hsm rfl h0
        (fun st i hi hin hp => hstep st i hi (by omega) hp)

theorem aread_aset_self (a : JArr) (i : Int) (v : JSV) : aread (aset a i v) i = v := by
  simp [aread, aset]

theorem aread_aset_of_ne (a : JArr) {i j : Int} (h : j ≠ i) (v : JSV) :
    aread (aset a i v) j = aread a j := by
  simp [aread, aset, h]

theorem aset_len_of_lt (a : JArr) {i : Int} (h : i < (a.len : Int)) (v : JSV) :
    (aset a i v).len = a.len := by
  simp only [aset]
  split
  · omega
  · rfl

theorem mkFilled_len (n : Nat) (v : JSV) : (mkFilled n v).len = n := rfl

theorem aread_mkFilled_of_mem (n : Nat) (v : JSV) {i : Int} (h0 : 0 ≤ i)
    (h1 : i < (n : Int)) : aread (mkFilled n v) i = v := by
  simp [aread, mkFilled, h0, h1]

/-- A loop that only performs index assignments below a bound keeps the
array length. -/
theorem forRange_len_eq {s n : Int} {L : Nat} {init : JArr} (hinit : init.len = L)
    (g : JArr → Int → JSV) (hn : n ≤ (L : Int)) :
    (forRange s n init (fun a i => aset a i (g a i))).len = L := by
  rcases le_or_lt s n with hsn | hsn
  · refine forRange_inv (P := fun _ (a : JArr) => a.len = L) hsn hinit ?_
    intro st i _ hin hp
    have hlt : i < (st.len : Int) := by rw [hp]; omega
    rw [aset_len_of_lt st hlt, hp]
  · rw [forRange_eq_init (le_of_lt hsn)]
    exact hinit

theorem intRange_length (s n : Int) : (intRange s n).length = (n - s).toNat := by
  unfold intRange
  rw [List.length_map, List.length_range]

theorem sma_len (data : List JSV) (period : Nat) :
    (calculateSMA data period).len = data.length := by
  unfold calculateSMA
  exact forRange_len_eq (mkFilled_len _ _) _ le_rfl

theorem ema_len (data : List JSV) (period : Nat) :
    (calculateEMA data period).len = data.length := by
  unfold calculateEMA
  split
  · exact mkFilled_len _ _
  · refine forRange_len_eq ?_ _ le_rfl
    refine (aset_len_of_lt _ ?_ _).trans (mkFilled_len _ _)
    rw [mkFilled_len]
    omega

theorem rsi_len (data : List JSV) (period : Nat) (h : data.length ≠ period) :
    (calculateRSI data period).len = data.length := by
  unfold calculateRSI
  split
  · exact mkFilled_len _ _
  · rename_i hge
    have hgt : period < data.length := by omega
    unfold rsiStateAt
    have harr0 : (aset (mkFilled data.length .null) (period : Int)
        (rsiValOf ((rsiSeed data period).1, (rsiSeed data period).2))).len
        = data.length := by
      refine (aset_len_of_lt _ ?_ _).trans (mkFilled_len _ _)
      rw [mkFilled_len]
      omega
    rcases le_or_lt ((period : Int) + 1) (data.length : Int) with hsn | hsn
    · refine (forRange_inv (P := fun _ (st : JSV × JSV × JArr) => st.2.2.len = data.length)
        hsn harr0 ?_).trans rfl
      intro st i _ hin hp
      unfold rsiStep
      simp only
      refine (aset_len_of_lt _ ?_ _).trans hp
      rw [hp]
      omega
    · rw [forRange_eq_init (le_of_lt hsn)]
      exact harr0

theorem macd_len (data : List JSV) (fast slow signal : Nat) :
    (calculateMACD data fast slow signal).1.len = data.length ∧
    (calculateMACD data fast slow signal).2.1.len = data.length ∧
    (calculateMACD data fast slow signal).2.2.len = data.length := by
  unfold calculateMACD
  simp only
  have condLen : ∀ (fe se : JArr),
      (forRange 0 (data.length : Int) (mkFilled data.length .null) (fun m i =>
        if aread fe i ≠ .null ∧ aread se i ≠ .null then
          aset m i (jSub (aread fe i) (aread se i)) else m)).len = data.length := by
    intro fe se
    refine forRange_inv (P := fun _ (a : JArr) => a.len = data.length)
      (by omega) (mkFilled_len _ _) ?_
    intro st i _ hin hp
    split
    · refine (aset_len_of_lt _ ?_ _).trans hp
      rw [hp]
      omega
    · exact hp
  have validLe : (((intRange 0 data.length).map
      (aread (forRange 0 (data.length : Int) (mkFilled data.length .null) (fun m i =>
        if aread (calculateEMA data fast) i ≠ .null ∧ aread (calculateEMA data slow) i ≠ .null
        then aset m i (jSub (aread (calculateEMA data fast) i)
          (aread (calculateEMA data slow) i)) else m)))).filter
      (fun v => v ≠ .null)).length ≤ data.length := by
    refine le_trans (List.length_filter_le _ _) ?_
    rw [List.length_map, intRange_length]
    omega
  refine ⟨condLen _ _, ?_, condLen _ _⟩
  rw [ema_len]
  refine forRange_inv (P := fun _ (a : JArr) => a.len = data.length)
    (by omega) (mkFilled_len _ _) ?_
  intro st i hi hin hp
  refine (aset_len_of_lt _ ?_ _).trans hp
  rw [hp]
  omega

theorem forRange_len_eq2 {s n : Int} {L1 L2 : Nat} {init : JArr × JArr}
    (h1 : init.1.len = L1) (h2 : init.2.len = L2)
    (g1 g2 : JArr × JArr → Int → JSV) (hn1 : n ≤ (L1 : Int)) (hn2 : n ≤ (L2 : Int)) :
    (forRange s n init (fun a i => (aset a.1 i (g1 a i), aset a.2 i (g2 a i)))).1.len = L1 ∧
    (forRange s n init (fun a i => (aset a.1 i (g1 a i), aset a.2 i (g2 a i)))).2.len = L2 := by
  rcases le_or_lt s n with hsn | hsn
  · refine forRange_inv
      (P := fun _ (st : JArr × JArr) => st.1.len = L1 ∧ st.2.len = L2)
      hsn ⟨h1, h2⟩ ?_
    intro st i _ hin hp
    constructor
    · refine (aset_len_of_lt _ ?_ _).trans hp.1
      rw [hp.1]
      omega
    · refine (aset_len_of_lt _ ?_ _).trans hp.2
      rw [hp.2]
      omega
  · rw [forRange_eq_init (le_of_lt hsn)]
    exact ⟨h1, h2⟩

theorem bollinger_len (sqrtF : ℚ → ℚ) (data : List JSV) (period : Nat) (stdDev : ℚ) :
    (calculateBollingerBands sqrtF data period stdDev).1.len = data.length ∧
    (calculateBollingerBands sqrtF data period stdDev).2.1.len = data.length ∧
    (calculateBollingerBands sqrtF data period stdDev).2.2.len = data.length := by
  unfold calculateBollingerBands
  have h := @forRange_len_eq2 ((period : Int) - 1) (data.length : Int)
    data.length data.length (mkFilled data.length .null, mkFilled data.length .null)
    rfl rfl
    (fun ul i => jAdd (aread (calculateSMA data period) i) (jMul (.num stdDev)
      (jSqrt sqrtF (jDiv ((jslice data (i - period + 1) (i + 1)).foldl
        (fun acc val => jAdd acc (jMul (jSub val (aread (calculateSMA data period) i))
          (jSub val (aread (calculateSMA data period) i)))) (.num 0)) (.num period)))))
    (fun ul i => jSub (aread (calculateSMA data period) i) (jMul (.num stdDev)
      (jSqrt sqrtF (jDiv ((jslice data (i - period + 1) (i + 1)).foldl
        (fun acc val => jAdd acc (jMul (jSub val (aread (calculateSMA data period) i))
          (jSub val (aread (calculateSMA data period) i)))) (.num 0)) (.num period)))))
    le_rfl le_rfl
  exact ⟨h.1, h.2, sma_len data period⟩

theorem atr_len (high low close : List JSV) (period : Nat) (h : period < close.length) :
    (calculateATR high low close period).len = close.length := by
  unfold calculateATR
  refine forRange_len_eq ?_ _ le_rfl
  refine (aset_len_of_lt _ ?_ _).trans (mkFilled_len _ _)
  rw [mkFilled_len]
  omega

theorem adx_len (high low close : List JSV) (period : Nat) (_h1 : 1 ≤ period)
    (h2 : 2 * period ≤ close.length) :
    (calculateADX high low close period).len = close.length := by
  unfold calculateADX
  refine forRange_len_eq ?_ _ le_rfl
  refine (aset_len_of_lt _ ?_ _).trans (mkFilled_len _ _)
  rw [mkFilled_len]
  omega

/-- C2, counterexample: the claim "every indicator returns series whose
length equals the length of its input, for every input length including
lengths equal to or below the period" is false: `calculateRSI` on an input
of length exactly equal to its period writes the seed entry one slot past
the end of the array, extending it (JS index-assignment), so the output is
longer than the input. -/
theorem c2_counterexample :
    (calculateRSI [JSV.num 1, JSV.num 2] 2).len ≠ [JSV.num 1, JSV.num 2].length := by
  decide

/-- C2, amended: SMA, EMA, MACD and Bollinger preserve the input length for
every input and every period; RSI preserves it whenever the input length
differs from the period; ATR preserves it whenever the input is strictly
longer than the period; ADX (period ≥ 1) preserves it whenever the input
length is at least twice the period.  (At the excluded boundary lengths the
unconditional seed writes `rsi[period]`, `atr[period]`, `adx[2*period-1]`
land past the end of the array and extend it.) -/
theorem c2_amended :
    (∀ data period, (calculateSMA data period).len = data.length) ∧
    (∀ data period, (calculateEMA data period).len = data.length) ∧
    (∀ data fast slow signal,
      (calculateMACD data fast slow signal).1.len = data.length ∧
      (calculateMACD data fast slow signal).2.1.len = data.length ∧
      (calculateMACD data fast slow signal).2.2.len = data.length) ∧
    (∀ sqrtF data period stdDev,
      (calculateBollingerBands sqrtF data period stdDev).1.len = data.length ∧
      (calculateBollingerBands sqrtF data period stdDev).2.1.len = data.length ∧
      (calculateBollingerBands sqrtF data period stdDev).2.2.len = data.length) ∧
    (∀ data period, data.length ≠ period → (calculateRSI data period).len = data.length) ∧
    (∀ high low close period, period < close.length →
      (calculateATR high low close period).len = close.length) ∧
    (∀ high low close period, 1 ≤ period → 2 * period ≤ close.length →
      (calculateADX high low close period).len = close.length) :=
  ⟨sma_len, ema_len, macd_len, bollinger_len, rsi_len, atr_len, adx_len⟩

/-- C2, witness: the amended theorem applied at concrete inputs that
satisfy its hypotheses. -/
theorem c2_witness :
    (calculateRSI (List.replicate 3 (JSV.num 1)) 2).len =
      (List.replicate 3 (JSV.num 1)).length ∧
    (calculateATR [] [] (List.replicate 3 (JSV.num 1)) 2).len =
      (List.replicate 3 (JSV.num 1)).length ∧
    (calculateADX [] [] (List.replicate 4 (JSV.num 1)) 2).len =
      (List.replicate 4 (JSV.num 1)).length :=
  ⟨c2_amended.2.2.2.2.1 _ 2 (by decide),
   c2_amended.2.2.2.2.2.1 [] [] _ 2 (by decide),
   c2_amended.2.2.2.2.2.2 [] [] _ 2 (by decide) (by decide)⟩

/-- C5: the regime classifier applies its rules in fixed priority order with
first match winning — ADX > 25 with |slope| > 0.05 gives STRONG_TREND;
otherwise ADX > 20 gives WEAK_TREND; otherwise ADX < 18 gives STRONG_RANGE;
otherwise WEAK_RANGE — and the four concrete cases of the spec evaluate
accordingly (ADX=30, slope=1 → STRONG_TREND; 22, 0 → WEAK_TREND;
10, any slope → STRONG_RANGE; 19, 0 → WEAK_RANGE). -/
theorem c5_regime_priority :
    ∀ a s : ℚ,
      ((25 < a ∧ 1/20 < |s|) → classifyRegime (.num a) s = "STRONG_TREND") ∧
      (¬(25 < a ∧ 1/20 < |s|) → 20 < a → classifyRegime (.num a) s = "WEAK_TREND") ∧
      (¬(25 < a ∧ 1/20 < |s|) → ¬(20 < a) → a < 18 →
        classifyRegime (.num a) s = "STRONG_RANGE") ∧
      (¬(25 < a ∧ 1/20 < |s|) → ¬(20 < a) → ¬(a < 18) →
        classifyRegime (.num a) s = "WEAK_RANGE") ∧
      classifyRegime (.num 30) 1 = "STRONG_TREND" ∧
      classifyRegime (.num 22) 0 = "WEAK_TREND" ∧
      classifyRegime (.num 10) s = "STRONG_RANGE" ∧
      classifyRegime (.num 19) 0 = "WEAK_RANGE" := by
  intro a s
  have hC : ∀ x y : ℚ, jGtB (.num x) (.num y) = decide (y < x) := fun x y => rfl
  have hD : ∀ x y : ℚ, jLtB (.num x) (.num y) = decide (x < y) := fun x y => rfl
  refine ⟨?_, ?_, ?_, ?_, ?_, ?_, ?_, ?_⟩
  · intro h
    simp [classifyRegime, hC, hD, h.1]
    intro hc
    exact absurd hc (not_le.mpr (by simpa [one_div] using h.2))
  · intro h h20
    rcases not_and_or.mp h with h25 | hs
    · simp [classifyRegime, hC, hD, h25, h20]
    · simp [classifyRegime, hC, hD, hs, h20]
      intro _
      simpa [one_div] using hs
  · intro h h20 h18
    have h25 : ¬(25 < a) := by intro hc; exact h20 (by linarith)
    simp [classifyRegime, hC, hD, h25, h20, h18]
  · intro h h20 h18
    have h25 : ¬(25 < a) := by intro hc; exact h20 (by linarith)
    simp [classifyRegime, hC, hD, h25, h20, h18]
  · simp [classifyRegime, hC, hD]
    norm_num
  · simp [classifyRegime, hC, hD]
    norm_num
  · have h25 : ¬(25 < (10 : ℚ)) := by norm_num
    have h20 : ¬(20 < (10 : ℚ)) := by norm_num
    have h18 : (10 : ℚ) < 18 := by norm_num
    simp [classifyRegime, hC, hD, h25, h20, h18]
  · simp [classifyRegime, hC, hD]
    norm_num

/-- C5, witness: the priority rules applied at the concrete point
ADX = 30, slope = 1. -/
theorem c5_witness : classifyRegime (.num 30) 1 = "STRONG_TREND" :=
  (c5_regime_priority 30 1).1 (by norm_num)

/-- C8: `runStrategy` dispatches every strategy id other than
"structural_reversal" — including ids outside the documented set — to the
trend-regime strategy, and never fails on an unrecognized id (it returns
exactly the trend-regime result). -/
theorem c8_dispatch :
    ∀ (symbol strategyId : String) (k4t k15t k4s k1s k15s : List Bar),
      strategyId ≠ "structural_reversal" →
      runStrategy symbol strategyId k4t k15t k4s k1s k15s =
        runTrendRegimeStrategy symbol k4t k15t := by
  intro sym sid k4t k15t k4s k1s k15s h
  unfold runStrategy
  rw [if_neg h]

/-- C8, witness: the dispatch theorem applied to the undocumented id
"momentum". -/
theorem c8_witness :
    runStrategy "BTCUSDT" "momentum" [] [] [] [] [] =
      runTrendRegimeStrategy "BTCUSDT" [] [] :=
  c8_dispatch "BTCUSDT" "momentum" [] [] [] [] [] (by decide)

/-- Values produced by reading a plain rational input array. -/
def IsNumU (v : JSV) : Prop := v = .undef ∨ ∃ q : ℚ, v = .num q

/-- Values that are NaN or a non-negative finite number. -/
def IsNN (v : JSV) : Prop := v = .nan ∨ ∃ q : ℚ, 0 ≤ q ∧ v = .num q

/-- Entries of the true-range array: undefined reads, NaN, or non-negative
numbers. -/
def IsTRV (v : JSV) : Prop := v = .undef ∨ IsNN v

/-- Entries of the ATR output array. -/
def IsATRV (v : JSV) : Prop := v = .null ∨ v = .undef ∨ IsNN v

theorem dread_numsOf (l : List ℚ) (i : Int) : IsNumU (dread (numsOf l) i) := by
  unfold dread numsOf
  split
  · rw [List.getD_eq_getElem?_getD, List.getElem?_map]
    cases l[i.toNat]? with
    | none => left; rfl
    | some q => right; exact ⟨q, rfl⟩
  · left; rfl

theorem jSub_numU {a b : JSV} (ha : IsNumU a) (hb : IsNumU b) :
    jSub a b = .nan ∨ ∃ q : ℚ, jSub a b = .num q := by
  rcases ha with ha | ⟨x, ha⟩ <;> rcases hb with hb | ⟨y, hb⟩ <;> subst ha <;> subst hb
  · left; rfl
  · left; rfl
  · left; rfl
  · right; exact ⟨x + -y, rfl⟩

theorem jAbs_out {c : JSV} (h : c = .nan ∨ ∃ q : ℚ, c = .num q) : IsNN (jAbs c) := by
  rcases h with h | ⟨q, h⟩ <;> subst h
  · left; rfl
  · right; exact ⟨|q|, abs_nonneg q, rfl⟩

theorem jMax_nn {x y : JSV} (hx : x = .nan ∨ ∃ q : ℚ, x = .num q) (hy : IsNN y) :
    IsNN (jMax x y) := by
  rcases hx with hx | ⟨p, hx⟩ <;> rcases hy with hy | ⟨q, hq, hy⟩ <;> subst hx <;> subst hy
  · left; rfl
  · left; rfl
  · left; rfl
  · right
    exact ⟨max p q, le_trans hq (le_max_right p q), rfl⟩

theorem jAdd_nn {a b : JSV} (ha : IsNN a) (hb : IsTRV b) : IsNN (jAdd a b) := by
  rcases ha with ha | ⟨x, hx, ha⟩ <;> subst ha
  · rcases hb with hb | hb | ⟨y, hy, hb⟩ <;> subst hb <;> left <;> rfl
  · rcases hb with hb | hb | ⟨y, hy, hb⟩ <;> subst hb
    · left; rfl
    · left; rfl
    · right; exact ⟨x + y, by linarith, rfl⟩

theorem jDiv_nn_pos {a : JSV} (ha : IsNN a) {c : ℚ} (hc : 0 < c) :
    IsNN (jDiv a (.num c)) := by
  rcases ha with ha | ⟨x, hx, ha⟩ <;> subst ha
  · left; rfl
  · right
    refine ⟨x / c, div_nonneg hx (le_of_lt hc), ?_⟩
    simp [jDiv, JSV.toArith]
    intro h
    exact absurd h (ne_of_gt hc)

theorem jMul_nn_entry {a : JSV} (ha : IsATRV a) {c : ℚ} (hc : 0 ≤ c) :
    IsNN (jMul a (.num c)) := by
  rcases ha with ha | ha | ha | ⟨x, hx, ha⟩ <;> subst ha
  · right; exact ⟨0 * c, by simp, rfl⟩
  · left; rfl
  · left; rfl
  · right; exact ⟨x * c, mul_nonneg hx hc, rfl⟩

theorem aset_pred {Pr : JSV → Prop} {a : JArr} (ha : ∀ j, Pr (aread a j)) (i : Int)
    {v : JSV} (hv : Pr v) : ∀ j, Pr (aread (aset a i v) j) := by
  intro j
  by_cases h : j = i
  · subst h
    rw [aread_aset_self]
    exact hv
  · rw [aread_aset_of_ne _ h]
    exact ha j

theorem mkFilled_pred {Pr : JSV → Prop} {n : Nat} {v : JSV} (hv : Pr v)
    (hu : Pr .undef) : ∀ j, Pr (aread (mkFilled n v) j) := by
  intro j
  unfold aread mkFilled
  simp only
  split
  · exact hv
  · exact hu

theorem IsNN_weak {v : JSV} (h : IsNN v) : v = .nan ∨ ∃ q : ℚ, v = .num q := by
  rcases h with h | ⟨q, _, h⟩
  · left; exact h
  · right; exact ⟨q, h⟩

theorem forRange_inv_const {σ : Type _} {s n : Int} {P : σ → Prop} {f : σ → Int → σ}
    {init : σ} (h0 : P init)
    (hstep : ∀ st i, s ≤ i → i < n → P st → P (f st i)) :
    P (forRange s n init f) := by
  rcases le_or_lt s n with hsn | hsn
  · exact forRange_inv (P := fun _ st => P st) hsn h0
      (fun st i hi hin hp => hstep st i hi hin hp)
  · rw [forRange_eq_init (le_of_lt hsn)]
    exact h0

theorem atrTR_entries (hq lq cq : List ℚ) :
    ∀ j, IsTRV (aread (atrTR (numsOf hq) (numsOf lq) (numsOf cq)) j) := by
  unfold atrTR
  refine forRange_inv_const (P := fun a => ∀ j, IsTRV (aread a j))
    (mkFilled_pred (Or.inr (Or.inr ⟨0, le_refl 0, rfl⟩)) (Or.inl rfl)) ?_
  intro st i _ _ hp
  refine aset_pred hp i ?_
  right
  refine jMax_nn (IsNN_weak (jMax_nn ?_ (jAbs_out ?_))) (jAbs_out ?_)
  · rcases jSub_numU (dread_numsOf hq i) (dread_numsOf lq i) with h | ⟨q, h⟩
    · left; exact h
    · right; exact ⟨q, h⟩
  · rcases jSub_numU (dread_numsOf hq i) (dread_numsOf cq (i - 1)) with h | ⟨q, h⟩
    · left; exact h
    · right; exact ⟨q, h⟩
  · rcases jSub_numU (dread_numsOf lq i) (dread_numsOf cq (i - 1)) with h | ⟨q, h⟩
    · left; exact h
    · right; exact ⟨q, h⟩

theorem atr14_entries (hq lq cq : List ℚ) :
    ∀ j, IsATRV (aread (calculateATR (numsOf hq) (numsOf lq) (numsOf cq) 14) j) := by
  have htr := atrTR_entries hq lq cq
  unfold calculateATR
  refine forRange_inv_const (P := fun a => ∀ j, IsATRV (aread a j)) ?_ ?_
  · refine aset_pred (mkFilled_pred (Or.inl rfl) (Or.inr (Or.inl rfl))) _ ?_
    refine Or.inr (Or.inr (jDiv_nn_pos ?_ (by positivity)))
    refine forRange_inv_const (P := IsNN) (Or.inr ⟨0, le_refl 0, rfl⟩) ?_
    intro st i _ _ hp
    exact jAdd_nn hp (htr i)
  · intro st i _ _ hp
    refine aset_pred hp i ?_
    refine Or.inr (Or.inr (jDiv_nn_pos (jAdd_nn ?_ (htr i)) (by positivity)))
    exact jMul_nn_entry (hp (i - 1)) (by norm_num)

theorem toQ_jor0_nonneg {v : JSV} (h : IsATRV v) : 0 ≤ toQ (jor0 v) := by
  rcases h with h | h | h | ⟨q, hq, h⟩ <;> subst h
  · simp [jor0, jTruthy, toQ]
  · simp [jor0, jTruthy, toQ]
  · simp [jor0, jTruthy, toQ]
  · by_cases hq0 : q = 0
    · subst hq0
      simp [jor0, jTruthy, toQ]
    · simp [jor0, jTruthy, toQ, hq0]
      exact hq

theorem apop_atr14 (hq lq cq : List ℚ) :
    IsATRV (apop (calculateATR (numsOf hq) (numsOf lq) (numsOf cq) 14)) := by
  unfold apop
  split
  · exact Or.inr (Or.inl rfl)
  · exact atr14_entries hq lq cq _

theorem structAtr4_nonneg (k4 : List Bar) : 0 ≤ structAtr4 k4 :=
  toQ_jor0_nonneg (apop_atr14 _ _ _)

theorem trendAtr_nonneg (k15 : List Bar) : 0 ≤ trendAtr k15 :=
  toQ_jor0_nonneg (atr14_entries _ _ _ _)

theorem calculatePRZ_mono {lo hi : ℚ} (h : lo ≤ hi) (direction : Option String) :
    (calculatePRZ lo hi direction).1 ≤ (calculatePRZ lo hi direction).2 := by
  unfold calculatePRZ
  split
  · simp only
    linarith
  · simp only
    linarith

theorem structuralStage2_spec {symbol : String} {active k15 : List Bar} {trend : String}
    {direction : Option String} {sh sl : List Bool} {r : StrategyResult}
    (h : structuralStage2 symbol active k15 trend direction sh sl = .ok r) :
    (r.regime = "NO_IMPULSE" ∧ r.direction = "LONG" ∧ r.entry_low = 0 ∧ r.entry_high = 0) ∨
    (∃ lo hi : ℚ, findImpulse active sh sl direction = some (lo, hi) ∧
      r.entry_low = (calculatePRZ lo hi direction).1 ∧
      r.entry_high = (calculatePRZ lo hi direction).2 ∧
      ((r.direction = "LONG" ∧ r.stop = lo ∧ r.target = hi) ∨
       (r.direction = "SHORT" ∧ r.stop = hi ∧ r.target = lo)) ∧
      (r.regime = "PRZ_WAITING_SIGNAL" ∨ r.regime = "WAITING_FOR_PRZ" ∨
        ∃ t, r.regime = "PRZ_REVERSAL_" ++ t)) := by
  unfold structuralStage2 at h
  simp only [] at h
  split at h
  next =>
    split at h
    next => exact absurd h (by simp)
    next =>
      left
      rcases Except.ok.inj h with rfl
      exact ⟨rfl, rfl, rfl, rfl⟩
  next impulse heq =>
    split at h
    next => exact absurd h (by simp)
    next b15 hb15 =>
      split at h
      next => exact absurd h (by simp)
      next eng heng =>
        right
        refine ⟨impulse.1, impulse.2, by rw [heq], ?_⟩
        split at h
        next hcond =>
          split at h
          next hsig =>
            rcases Except.ok.inj h with rfl
            exact ⟨rfl, rfl, Or.inl ⟨rfl, rfl, rfl⟩, Or.inr (Or.inr ⟨trend, rfl⟩)⟩
          next hsig =>
            rcases Except.ok.inj h with rfl
            exact ⟨rfl, rfl,
              Or.inl ⟨if_pos hcond.1, if_pos hcond.1, if_pos hcond.1⟩,
              Or.inl (if_pos hcond.2)⟩
        next hnup =>
          split at h
          next hcond =>
            split at h
            next hsig =>
              rcases Except.ok.inj h with rfl
              exact ⟨rfl, rfl, Or.inr ⟨rfl, rfl, rfl⟩, Or.inr (Or.inr ⟨trend, rfl⟩)⟩
            next hsig =>
              rcases Except.ok.inj h with rfl
              have hne : ¬(direction = some "UP") := by
                intro hc
                rw [hc] at hcond
                exact absurd hcond.1 (by decide)
              exact ⟨rfl, rfl,
                Or.inr ⟨if_neg hne, if_neg hne, if_neg hne⟩,
                Or.inl (if_pos hcond.2)⟩
          next hndown =>
            rcases Except.ok.inj h with rfl
            by_cases hprz : (decide (b15.bclose ≥
                (calculatePRZ impulse.1 impulse.2 direction).1 ⊓
                  (calculatePRZ impulse.1 impulse.2 direction).2 ∧
                b15.bclose ≤
                (calculatePRZ impulse.1 impulse.2 direction).1 ⊔
                  (calculatePRZ impulse.1 impulse.2 direction).2) = true)
            all_goals by_cases hup : direction = some "UP"
            · exact ⟨rfl, rfl, Or.inl ⟨if_pos hup, if_pos hup, if_pos hup⟩,
                Or.inl (if_pos hprz)⟩
            · exact ⟨rfl, rfl, Or.inr ⟨if_neg hup, if_neg hup, if_neg hup⟩,
                Or.inl (if_pos hprz)⟩
            · exact ⟨rfl, rfl, Or.inl ⟨if_pos hup, if_pos hup, if_pos hup⟩,
                Or.inr (Or.inl (if_neg hprz))⟩
            · exact ⟨rfl, rfl, Or.inr ⟨if_neg hup, if_neg hup, if_neg hup⟩,
                Or.inr (Or.inl (if_neg hprz))⟩

theorem structural_ok_spec {symbol : String} {k4 k1 k15 : List Bar} {r : StrategyResult}
    (h : runStructuralReversalStrategy symbol k4 k1 k15 = .ok r) :
    (r.regime = "LIQUIDITY_SWEEP_HIGH" ∧ r.direction = "SHORT" ∧
      r.entry_low = structRangeHigh k4 - structAtr4 k4 * (1/2) ∧
      r.entry_high = structRangeHigh k4 + structAtr4 k4 * (1/2)) ∨
    (r.regime = "LIQUIDITY_SWEEP_LOW" ∧ r.direction = "LONG" ∧
      r.entry_low = structRangeLow k4 - structAtr4 k4 * (1/2) ∧
      r.entry_high = structRangeLow k4 + structAtr4 k4 * (1/2)) ∨
    (r.regime = "RANGE_WAITING" ∧ r.direction = "LONG" ∧
      r.entry_low = 0 ∧ r.entry_high = 0) ∨
    (∃ (active : List Bar) (trend : String) (direction : Option String)
        (sh sl : List Bool),
      structuralStage2 symbol active k15 trend direction sh sl = .ok r) := by
  unfold runStructuralReversalStrategy at h
  simp only [] at h
  split at h
  next =>
    split at h
    next =>
      split at h
      next => exact absurd h (by simp)
      next lastBar hlast =>
        split at h
        next =>
          rcases Except.ok.inj h with rfl
          exact Or.inl ⟨rfl, rfl, rfl, rfl⟩
        next =>
          split at h
          next =>
            rcases Except.ok.inj h with rfl
            exact Or.inr (Or.inl ⟨rfl, rfl, rfl, rfl⟩)
          next =>
            rcases Except.ok.inj h with rfl
            exact Or.inr (Or.inr (Or.inl ⟨rfl, rfl, rfl, rfl⟩))
    next =>
      exact Or.inr (Or.inr (Or.inr ⟨k1, _, _, _, _, h⟩))
  next =>
    exact Or.inr (Or.inr (Or.inr ⟨k4, _, _, _, _, h⟩))

/-- A flat test bar: open = high = low = close = q. -/
def cbar (q : ℚ) : Bar := ⟨q, q, q, q⟩

/-- A test bar with given high and low, open = close = c. -/
def hlc (h l c : ℚ) : Bar := ⟨c, h, l, c⟩

/-- Sixteen flat bars: a featureless ranging 4h series. -/
def flatBars : List Bar := List.replicate 16 (cbar 5)

/-- Sixteen identical bars ranging between 9 and 10 and closing at the
high: a tight range whose last swing high the price touches. -/
def boxBars : List Bar := List.replicate 16 (hlc 10 9 10)

/-- A 4h series whose swing structure is BULLISH (higher highs 10 < 20 and
higher lows 5 < 25) but whose last swing low (25) lies above its last swing
high (20): the impulse leg is inverted. -/
def cx4Bars : List Bar := [
  hlc 9 8 8, hlc 9 8 8, hlc 9 8 8, hlc 9 8 8,
  hlc 10 8 9, hlc 9 6 7, hlc 9 5 6, hlc 9 6 7,
  hlc 20 7 10, hlc 19 18 18, hlc (39/2) 19 19, hlc (99/5) (39/2) (39/2),
  hlc 26 (51/2) 26, hlc 27 26 26, hlc 28 (127/5) 26, hlc 29 25 26,
  hlc 30 26 27, hlc 31 27 28, hlc 32 28 29 ]

/-- A minimal 15m series (two bars, price far below the PRZ). -/
def cx15Bars : List Bar := [⟨1, 2, 1/2, 3/2⟩, ⟨1, 2, 1/2, 3/2⟩]

/-- A 4h series alternating between 0 and 100 with a final bar at 50: the
close-to-close jumps make the ATR (about 96.4) larger than the distance
from the latest price (50) to both the last swing high (100) and the last
swing low (0). -/
def altBars : List Bar :=
  (List.range 15).map (fun i => if i % 2 = 0 then cbar 0 else cbar 100) ++ [cbar 50]

theorem przReversal_ne_rangeWaiting (t : String) :
    "PRZ_REVERSAL_" ++ t ≠ "RANGE_WAITING" := by
  intro h
  have hl := congrArg String.length h
  rw [String.length_append] at hl
  have h13 : ("PRZ_REVERSAL_" : String).length = 13 := by decide
  have h13b : ("RANGE_WAITING" : String).length = 13 := by decide
  have ht : t.length = 0 := by omega
  have ht2 : t = "" := by
    cases t with
    | mk data =>
      cases data with
      | nil => rfl
      | cons c cs => exact absurd ht (by simp [String.length])
  subst ht2
  exact absurd h (by decide)

theorem przReversal_ne_noImpulse (t : String) :
    "PRZ_REVERSAL_" ++ t ≠ "NO_IMPULSE" := by
  intro h
  have hl := congrArg String.length h
  rw [String.length_append] at hl
  have h13 : ("PRZ_REVERSAL_" : String).length = 13 := by decide
  have h10 : ("NO_IMPULSE" : String).length = 10 := by decide
  omega

theorem przReversal_head (t : String) :
    ("PRZ_REVERSAL_" ++ t).data.head? = some 'P' := by
  cases t with
  | mk data =>
      have hd : ("PRZ_REVERSAL_" ++ String.mk data).data =
          ("PRZ_REVERSAL_" : String).data ++ data := rfl
      rw [hd]
      have h1 : ("PRZ_REVERSAL_" : String).data =
          'P' :: ("RZ_REVERSAL_" : String).data := by decide
      rw [h1, List.cons_append]
      rfl

theorem przReversal_ne_sweepHigh (t : String) :
    "PRZ_REVERSAL_" ++ t ≠ "LIQUIDITY_SWEEP_HIGH" := by
  intro h
  have hh := congrArg (fun s : String => s.data.head?) h
  simp only [] at hh
  rw [przReversal_head t] at hh
  exact absurd hh (by decide)

theorem przReversal_ne_sweepLow (t : String) :
    "PRZ_REVERSAL_" ++ t ≠ "LIQUIDITY_SWEEP_LOW" := by
  intro h
  have hh := congrArg (fun s : String => s.data.head?) h
  simp only [] at hh
  rw [przReversal_head t] at hh
  exact absurd hh (by decide)

/-- C9: every RANGE_WAITING and NO_IMPULSE result of the structural-reversal
strategy carries direction "LONG", regardless of the input market data. -/
theorem c9_waiting_direction :
    ∀ (symbol : String) (k4 k1 k15 : List Bar) (r : StrategyResult),
      runStructuralReversalStrategy symbol k4 k1 k15 = .ok r →
      (r.regime = "RANGE_WAITING" ∨ r.regime = "NO_IMPULSE") →
      r.direction = "LONG" := by
  intro symbol k4 k1 k15 r h hreg
  rcases structural_ok_spec h with ⟨h1, _⟩ | ⟨h1, _⟩ | ⟨_, h2, _⟩ | ⟨a, t, d, sh, sl, hs⟩
  · rw [h1] at hreg
    rcases hreg with hr | hr
    · exact absurd hr (by decide)
    · exact absurd hr (by decide)
  · rw [h1] at hreg
    rcases hreg with hr | hr
    · exact absurd hr (by decide)
    · exact absurd hr (by decide)
  · exact h2
  · rcases structuralStage2_spec hs with ⟨_, h2, _⟩ | ⟨lo, hi, _, _, _, _, hregs⟩
    · exact h2
    · exfalso
      rcases hregs with hr | hr | ⟨t2, hr⟩ <;> rw [hr] at hreg
      · rcases hreg with h' | h'
        · exact absurd h' (by decide)
        · exact absurd h' (by decide)
      · rcases hreg with h' | h'
        · exact absurd h' (by decide)
        · exact absurd h' (by decide)
      · rcases hreg with h' | h'
        · exact przReversal_ne_rangeWaiting t2 h'
        · exact przReversal_ne_noImpulse t2 h'

/-- C9, witness: on the flat 16-bar input the structural strategy emits the
RANGE_WAITING result, and the theorem yields its direction "LONG". -/
theorem c9_witness :
    runStructuralReversalStrategy "ETHUSDT" flatBars flatBars flatBars =
      .ok ⟨"ETHUSDT", "RANGE_WAITING", 5, "LONG", 0, 0, 0, 0, .num 0⟩ ∧
    StrategyResult.direction
      ⟨"ETHUSDT", "RANGE_WAITING", 5, "LONG", 0, 0, 0, 0, .num 0⟩ = "LONG" := by
  have hrun : runStructuralReversalStrategy "ETHUSDT" flatBars flatBars flatBars =
      .ok ⟨"ETHUSDT", "RANGE_WAITING", 5, "LONG", 0, 0, 0, 0, .num 0⟩ := by
    with_unfolding_all decide
  exact ⟨hrun,
    c9_waiting_direction "ETHUSDT" flatBars flatBars flatBars _ hrun (Or.inl rfl)⟩

/-- C1, counterexample: the claim "every non-null SignalResult satisfies
entry_low ≤ entry_high" is false for the structural-reversal strategy: on a
bullish 4h structure whose last swing low (25) lies above its last swing
high (20) the PRZ bounds invert, and the returned WAITING_FOR_PRZ result
has entry_low = 23.93 > 23.09 = entry_high. -/
theorem c1_counterexample :
    runStructuralReversalStrategy "BTCUSDT" cx4Bars [] cx15Bars =
      .ok ⟨"BTCUSDT", "WAITING_FOR_PRZ", 3/2, "LONG", 2393/100, 2309/100, 25, 20,
           .num 0⟩ ∧
    ¬((2393/100 : ℚ) ≤ 2309/100) := by
  constructor
  · with_unfolding_all decide
  · norm_num

/-- C1, amended: every non-null trend-regime result satisfies
entry_low ≤ entry_high (the producer normalizes with min/max); every
structural-reversal liquidity-sweep or zeroed waiting result
(LIQUIDITY_SWEEP_HIGH, LIQUIDITY_SWEEP_LOW, RANGE_WAITING, NO_IMPULSE)
satisfies the bound unconditionally; and any structural-reversal result
satisfies it provided its stop and target lie on the expected sides for its
direction (stop ≤ target for LONG, target ≤ stop for SHORT) — equivalently,
whenever the impulse leg it was built from has low ≤ high.  Without that
proviso the PRZ bounds of impulse results can invert (see the
counterexample). -/
theorem c1_amended :
    (∀ (symbol : String) (k4 k15 : List Bar),
      resEntryLow (runTrendRegimeStrategy symbol k4 k15) ≤
        resEntryHigh (runTrendRegimeStrategy symbol k4 k15)) ∧
    (∀ (symbol : String) (k4 k1 k15 : List Bar) (r : StrategyResult),
      runStructuralReversalStrategy symbol k4 k1 k15 = .ok r →
      (r.regime = "LIQUIDITY_SWEEP_HIGH" ∨ r.regime = "LIQUIDITY_SWEEP_LOW" ∨
        r.regime = "RANGE_WAITING" ∨ r.regime = "NO_IMPULSE") →
      r.entry_low ≤ r.entry_high) ∧
    (∀ (symbol : String) (k4 k1 k15 : List Bar) (r : StrategyResult),
      runStructuralReversalStrategy symbol k4 k1 k15 = .ok r →
      (r.direction = "LONG" → r.stop ≤ r.target) →
      (r.direction = "SHORT" → r.target ≤ r.stop) →
      r.entry_low ≤ r.entry_high) := by
  refine ⟨?_, ?_, ?_⟩
  · intro symbol k4 k15
    unfold runTrendRegimeStrategy
    simp only []
    split
    · simp [resEntryLow, resEntryHigh]
    · repeat' split
      all_goals simp [resEntryLow, resEntryHigh, min_le_max]
  · intro symbol k4 k1 k15 r h hreg
    rcases structural_ok_spec h with ⟨_, _, hel, heh⟩ | ⟨_, _, hel, heh⟩ |
      ⟨_, _, hel, heh⟩ | ⟨a, t, d, sh, sl, hs⟩
    · rw [hel, heh]
      have := structAtr4_nonneg k4
      linarith
    · rw [hel, heh]
      have := structAtr4_nonneg k4
      linarith
    · rw [hel, heh]
    · rcases structuralStage2_spec hs with ⟨_, _, hel, heh⟩ |
        ⟨lo, hi, himp, hel, heh, hdirs, hregs⟩
      · rw [hel, heh]
      · exfalso
        rcases hregs with hr1 | hr1 | ⟨t2, hr1⟩
        · rw [hr1] at hreg
          rcases hreg with h2 | h2 | h2 | h2 <;> exact absurd h2 (by decide)
        · rw [hr1] at hreg
          rcases hreg with h2 | h2 | h2 | h2 <;> exact absurd h2 (by decide)
        · rw [hr1] at hreg
          rcases hreg with h2 | h2 | h2 | h2
          · exact przReversal_ne_sweepHigh t2 h2
          · exact przReversal_ne_sweepLow t2 h2
          · exact przReversal_ne_rangeWaiting t2 h2
          · exact przReversal_ne_noImpulse t2 h2
  · intro symbol k4 k1 k15 r h hL hS
    rcases structural_ok_spec h with ⟨_, hdir, hel, heh⟩ | ⟨_, hdir, hel, heh⟩ |
      ⟨_, _, hel, heh⟩ | ⟨a, t, d, sh, sl, hs⟩
    · rw [hel, heh]
      have := structAtr4_nonneg k4
      linarith
    · rw [hel, heh]
      have := structAtr4_nonneg k4
      linarith
    · rw [hel, heh]
    · rcases structuralStage2_spec hs with ⟨_, _, hel, heh⟩ |
        ⟨lo, hi, himp, hel, heh, hdirs, _⟩
      · rw [hel, heh]
      · rcases hdirs with ⟨hdir, hstop, htarg⟩ | ⟨hdir, hstop, htarg⟩
        · have hlh : lo ≤ hi := by
            rw [← hstop, ← htarg]
            exact hL hdir
          rw [hel, heh]
          exact calculatePRZ_mono hlh d
        · have hlh : lo ≤ hi := by
            rw [← hstop, ← htarg]
            exact hS hdir
          rw [hel, heh]
          exact calculatePRZ_mono hlh d

/-- C1, witness: the amended theorem exercised on concrete inputs — the
trend part on empty feeds, the unconditional sweep part on the box-range
input whose LIQUIDITY_SWEEP_HIGH result satisfies entry_low ≤ entry_high
(9.5 ≤ 10.5), and the conditional part on the flat input's RANGE_WAITING
result (direction LONG, stop 0 ≤ target 0). -/
theorem c1_witness :
    runStructuralReversalStrategy "ETHUSDT" boxBars flatBars flatBars =
      .ok ⟨"ETHUSDT", "LIQUIDITY_SWEEP_HIGH", 10, "SHORT", 19/2, 21/2, 11, 9,
           .num 1⟩ ∧
    resEntryLow (runTrendRegimeStrategy "ETHUSDT" [] []) ≤
      resEntryHigh (runTrendRegimeStrategy "ETHUSDT" [] []) ∧
    (19/2 : ℚ) ≤ 21/2 ∧
    StrategyResult.entry_low
        ⟨"ETHUSDT", "RANGE_WAITING", 5, "LONG", 0, 0, 0, 0, .num 0⟩ ≤
      StrategyResult.entry_high
        ⟨"ETHUSDT", "RANGE_WAITING", 5, "LONG", 0, 0, 0, 0, .num 0⟩ := by
  have hrun : runStructuralReversalStrategy "ETHUSDT" boxBars flatBars flatBars =
      .ok ⟨"ETHUSDT", "LIQUIDITY_SWEEP_HIGH", 10, "SHORT", 19/2, 21/2, 11, 9,
           .num 1⟩ := by
    with_unfolding_all decide
  have hrun2 : runStructuralReversalStrategy "ETHUSDT" flatBars flatBars flatBars =
      .ok ⟨"ETHUSDT", "RANGE_WAITING", 5, "LONG", 0, 0, 0, 0, .num 0⟩ := by
    with_unfolding_all decide
  refine ⟨hrun, c1_amended.1 "ETHUSDT" [] [], ?_, ?_⟩
  · exact c1_amended.2.1 "ETHUSDT" boxBars flatBars flatBars _ hrun (Or.inl rfl)
  · exact c1_amended.2.2 "ETHUSDT" flatBars flatBars flatBars _ hrun2
      (fun _ => by norm_num) (fun hc => absurd hc (by decide))

/-- C3, counterexample: the claim "a fetched timeframe below its documented
minimum (500 bars for the structural strategy's 4h feed) yields no signal,
never a computed trade setup" is false: the structural-reversal strategy
performs no bar-count check, and on a 16-bar 4h series it emits a full
LIQUIDITY_SWEEP_HIGH trade setup with a non-zero entry zone. -/
theorem c3_counterexample :
    boxBars.length = 16 ∧
    runStructuralReversalStrategy "BTCUSDT" boxBars flatBars flatBars =
      .ok ⟨"BTCUSDT", "LIQUIDITY_SWEEP_HIGH", 10, "SHORT", 19/2, 21/2, 11, 9,
           .num 1⟩ ∧
    ("LIQUIDITY_SWEEP_HIGH" : String) ≠ "RANGE_WAITING" ∧
    (19/2 : ℚ) ≠ 0 := by
  refine ⟨by decide, by with_unfolding_all decide, by decide, by norm_num⟩

/-- C3, amended: the trend-regime strategy does return null whenever its 4h
feed has fewer than 200 bars or its 15m feed fewer than 50; the
structural-reversal strategy applies no bar-count minimum (see the
counterexample). -/
theorem c3_amended :
    ∀ (symbol : String) (k4 k15 : List Bar),
      k4.length < 200 ∨ k15.length < 50 →
      runTrendRegimeStrategy symbol k4 k15 = none := by
  intro sym k4 k15 h
  unfold runTrendRegimeStrategy
  rw [if_pos h]

/-- C3, witness: the amended theorem applied to empty feeds. -/
theorem c3_witness : runTrendRegimeStrategy "BTCUSDT" [] [] = none :=
  c3_amended "BTCUSDT" [] [] (Or.inl (by decide))

/-- C7, counterexample: the claim's symmetric clause "price within one ATR
of the range's swing low emits LIQUIDITY_SWEEP_LOW / LONG" is false when
price is also within one ATR of the swing high: the high check runs first.
On the alternating series the latest price 50 is within one ATR (675/7 ≈
96.4) of the swing low 0, yet the result is LIQUIDITY_SWEEP_HIGH. -/
theorem c7_counterexample :
    (structTrend4 altBars).trend = "RANGE" ∧
    (structTrend1 flatBars).trend = "RANGE" ∧
    altBars.getLast? = some (cbar 50) ∧
    |(cbar 50).bclose - structRangeLow altBars| < structAtr4 altBars ∧
    eresRegime (runStructuralReversalStrategy "ETHUSDT" altBars flatBars flatBars) =
      "LIQUIDITY_SWEEP_HIGH" ∧
    ("LIQUIDITY_SWEEP_HIGH" : String) ≠ "LIQUIDITY_SWEEP_LOW" := by
  refine ⟨?_, ?_, ?_, ?_, ?_, by decide⟩
  · with_unfolding_all decide
  · with_unfolding_all decide
  · with_unfolding_all decide
  · with_unfolding_all decide
  · with_unfolding_all decide

/-- C7, amended: when both the 4h and the 1h timeframes classify as RANGE
and the latest 4h close is strictly within one 4h ATR of the range's last
swing high, the structural-reversal strategy emits exactly the
LIQUIDITY_SWEEP_HIGH result (SHORT, entry = swing high ± 0.5·ATR, stop =
swing high + ATR, target = range low); the symmetric LIQUIDITY_SWEEP_LOW /
LONG result for the swing low is emitted only when price is NOT within one
ATR of the swing high — the high check takes priority. -/
theorem c7_amended :
    ∀ (symbol : String) (k4 k1 k15 : List Bar) (b : Bar),
      (structTrend4 k4).trend = "RANGE" →
      (structTrend1 k1).trend = "RANGE" →
      k4.getLast? = some b →
      (|b.bclose - structRangeHigh k4| < structAtr4 k4 →
        runStructuralReversalStrategy symbol k4 k1 k15 =
          .ok ⟨symbol, "LIQUIDITY_SWEEP_HIGH", b.bclose, "SHORT",
               structRangeHigh k4 - structAtr4 k4 * (1/2),
               structRangeHigh k4 + structAtr4 k4 * (1/2),
               structRangeHigh k4 + structAtr4 k4,
               structRangeLow k4,
               jDiv (.num (structRangeHigh k4 - structRangeLow k4))
                 (.num (structAtr4 k4))⟩) ∧
      (¬(|b.bclose - structRangeHigh k4| < structAtr4 k4) →
        |b.bclose - structRangeLow k4| < structAtr4 k4 →
        runStructuralReversalStrategy symbol k4 k1 k15 =
          .ok ⟨symbol, "LIQUIDITY_SWEEP_LOW", b.bclose, "LONG",
               structRangeLow k4 - structAtr4 k4 * (1/2),
               structRangeLow k4 + structAtr4 k4 * (1/2),
               structRangeLow k4 - structAtr4 k4,
               structRangeHigh k4,
               jDiv (.num (structRangeHigh k4 - structRangeLow k4))
                 (.num (structAtr4 k4))⟩) := by
  intro symbol k4 k1 k15 b h4 h1 hlast
  unfold runStructuralReversalStrategy
  simp only []
  rw [if_pos h4, if_pos h1, hlast]
  simp only []
  constructor
  · intro hnear
    rw [if_pos hnear]
  · intro hfar hnearlow
    rw [if_neg hfar, if_pos hnearlow]

/-- C7, witness: the amended theorem applied to the box-range input, where
price 10 sits exactly on the swing high (distance 0 < ATR 1). -/
theorem c7_witness :
    runStructuralReversalStrategy "ETHUSDT" boxBars flatBars flatBars =
      .ok ⟨"ETHUSDT", "LIQUIDITY_SWEEP_HIGH", (hlc 10 9 10).bclose, "SHORT",
           structRangeHigh boxBars - structAtr4 boxBars * (1/2),
           structRangeHigh boxBars + structAtr4 boxBars * (1/2),
           structRangeHigh boxBars + structAtr4 boxBars,
           structRangeLow boxBars,
           jDiv (.num (structRangeHigh boxBars - structRangeLow boxBars))
             (.num (structAtr4 boxBars))⟩ :=
  (c7_amended "ETHUSDT" boxBars flatBars flatBars (hlc 10 9 10)
    (by with_unfolding_all decide) (by with_unfolding_all decide)
    (by with_unfolding_all decide)).1 (by with_unfolding_all decide)

theorem trendZones_buy_le (symbol : String) (k15 : List Bar) :
    (trendZones symbol k15).2.2.1 ≤ (trendZones symbol k15).2.2.2 := by
  have h := trendAtr_nonneg k15
  unfold trendZones
  simp only []
  split
  · simp only []
    linarith
  · simp only []
    linarith

/-- C10: in the range branch of the trend-regime strategy, an exact tie
between the distance to the sell-zone boundary and the distance to the
buy-zone boundary selects the buy zone: direction LONG, entry = the buy
zone, stop = buy_low - ATR, rr = 1.5. -/
theorem c10_range_tie :
    ∀ (symbol : String) (k4 k15 : List Bar),
      ¬(k4.length < 200 ∨ k15.length < 50) →
      strIncludes (trendRegime k4) "TREND" = false →
      strIncludes (trendRegime k4) "RANGE" = true →
      |trendPrice k15 - (trendZones symbol k15).1| =
        |trendPrice k15 - (trendZones symbol k15).2.2.2| →
      runTrendRegimeStrategy symbol k4 k15 =
        some ⟨symbol, trendRegime k4, trendPrice k15, "LONG",
              (trendZones symbol k15).2.2.1, (trendZones symbol k15).2.2.2,
              (trendZones symbol k15).2.2.1 - trendAtr k15,
              (trendZones symbol k15).2.2.2 +
                |(trendZones symbol k15).2.2.2 -
                  ((trendZones symbol k15).2.2.1 - trendAtr k15)| * (3/2),
              .num (3/2)⟩ := by
  intro symbol k4 k15 hlen hT hR htie
  unfold runTrendRegimeStrategy
  rw [if_neg hlen]
  simp only [hT, hR, Bool.false_eq_true, if_false, if_true]
  rw [if_neg (by rw [htie]; exact lt_irrefl _)]
  rw [min_eq_left (trendZones_buy_le symbol k15),
      max_eq_right (trendZones_buy_le symbol k15)]

/-- The 200-bar constant 4h feed used as witness input. -/
def k4c : List Bar := List.replicate 200 (cbar 5)

/-- The 50-bar constant 15m feed used as witness input. -/
def k15c : List Bar := List.replicate 50 (cbar 5)

theorem closesQ_replicate (n : Nat) (q : ℚ) :
    closesQ (List.replicate n (cbar q)) = List.replicate n q := by
  simp [closesQ, cbar, List.map_replicate]

theorem highsQ_replicate (n : Nat) (q : ℚ) :
    highsQ (List.replicate n (cbar q)) = List.replicate n q := by
  simp [highsQ, cbar, List.map_replicate]

theorem lowsQ_replicate (n : Nat) (q : ℚ) :
    lowsQ (List.replicate n (cbar q)) = List.replicate n q := by
  simp [lowsQ, cbar, List.map_replicate]

theorem numsOf_replicate (n : Nat) (q : ℚ) :
    numsOf (List.replicate n q) = List.replicate n (JSV.num q) := by
  simp [numsOf, List.map_replicate]

theorem dread_replicate {n : Nat} {q : ℚ} {i : Int} (h0 : 0 ≤ i) (h1 : i < (n : Int)) :
    dread (List.replicate n (JSV.num q)) i = .num q := by
  unfold dread
  rw [if_pos h0, List.getD_eq_getElem?_getD]
  have hlt : i.toNat < n := by omega
  simp [List.getElem?_replicate, hlt]

theorem jSub_num_self (q : ℚ) : jSub (.num q) (.num q) = .num 0 := by
  simp [jSub, jAdd, jNeg, JSV.toArith]

theorem jAdd_nan_right (x : JSV) : jAdd x .nan = .nan := by
  cases x <;> rfl

theorem jDiv_nan_left (y : JSV) : jDiv .nan y = .nan := by
  cases y <;> rfl

theorem adxDMTR_replicate_len {n : Nat} (q : ℚ) :
    (adxDMTR (List.replicate n (JSV.num q)) (List.replicate n (JSV.num q))
      (List.replicate n (JSV.num q))).1.len = n ∧
    (adxDMTR (List.replicate n (JSV.num q)) (List.replicate n (JSV.num q))
      (List.replicate n (JSV.num q))).2.1.len = n ∧
    (adxDMTR (List.replicate n (JSV.num q)) (List.replicate n (JSV.num q))
      (List.replicate n (JSV.num q))).2.2.len = n := by
  unfold adxDMTR
  refine forRange_inv_const
    (P := fun (st : JArr × JArr × JArr) => st.1.len = n ∧ st.2.1.len = n ∧ st.2.2.len = n)
    ⟨by simp [mkFilled_len], by simp [mkFilled_len], by simp [mkFilled_len]⟩ ?_
  intro st i h1 hin hp
  have hlt : i < (n : Int) := by
    simpa [List.length_replicate] using hin
  refine ⟨?_, ?_, ?_⟩
  · rw [aset_len_of_lt _ (by omega) _, hp.1]
  · rw [aset_len_of_lt _ (by omega) _, hp.2.1]
  · rw [aset_len_of_lt _ (by omega) _, hp.2.2]

theorem adxDMTR_replicate_zero {n : Nat} (q : ℚ) :
    ∀ j : Int, 0 ≤ j → j < (n : Int) →
      aread (adxDMTR (List.replicate n (JSV.num q)) (List.replicate n (JSV.num q))
        (List.replicate n (JSV.num q))).1 j = .num 0 ∧
      aread (adxDMTR (List.replicate n (JSV.num q)) (List.replicate n (JSV.num q))
        (List.replicate n (JSV.num q))).2.1 j = .num 0 ∧
      aread (adxDMTR (List.replicate n (JSV.num q)) (List.replicate n (JSV.num q))
        (List.replicate n (JSV.num q))).2.2 j = .num 0 := by
  unfold adxDMTR
  refine forRange_inv_const
    (P := fun (st : JArr × JArr × JArr) => ∀ j : Int, 0 ≤ j → j < (n : Int) →
      aread st.1 j = .num 0 ∧ aread st.2.1 j = .num 0 ∧ aread st.2.2 j = .num 0)
    (fun j h0 h1 => ⟨aread_mkFilled_of_mem _ _ h0 (by simpa using h1),
      aread_mkFilled_of_mem _ _ h0 (by simpa using h1),
      aread_mkFilled_of_mem _ _ h0 (by simpa using h1)⟩) ?_
  intro st i h1i hin hp
  have hin2 : i < (n : Int) := by simpa [List.length_replicate] using hin
  have hdi : dread (List.replicate n (JSV.num q)) i = .num q :=
    dread_replicate (by omega) hin2
  have hdi1 : dread (List.replicate n (JSV.num q)) (i - 1) = .num q :=
    dread_replicate (by omega) (by omega)
  simp only [hdi, hdi1, jSub_num_self]
  have hgt : jGtB (JSV.num 0) (JSV.num 0) = false := rfl
  have habs : jAbs (JSV.num 0) = .num 0 := by
    simp [jAbs, JSV.toArith]
  have hmax : jMax (JSV.num 0) (JSV.num 0) = .num 0 := by
    simp [jMax, JSV.toArith]
  simp only [hgt, Bool.false_and, Bool.and_self, if_false, habs, hmax]
  intro j hj0 hjn
  by_cases hji : j = i
  · subst hji
    exact ⟨aread_aset_self _ _ _, aread_aset_self _ _ _, aread_aset_self _ _ _⟩
  · rw [aread_aset_of_ne _ hji, aread_aset_of_ne _ hji, aread_aset_of_ne _ hji]
    exact hp j hj0 hjn

theorem jDiv_zero_num {c : ℚ} (hc : c ≠ 0) : jDiv (.num 0) (.num c) = .num 0 := by
  simp [jDiv, JSV.toArith, hc]

theorem jAdd_num_zero_zero : jAdd (.num 0) (.num 0) = .num 0 := by
  simp [jAdd, JSV.toArith]

theorem adxSmooth_zero {d : JArr} {n : Nat} (hd : d.len = n) (hn : 14 < n)
    (hent : ∀ j : Int, 0 ≤ j → j < (n : Int) → aread d j = .num 0) :
    ∀ j : Int, 14 ≤ j → j < (n : Int) → aread (adxSmooth d 14) j = .num 0 := by
  unfold adxSmooth
  simp only []
  rw [hd]
  have hsum : forRange 1 (((14 : Nat) : Int) + 1) (JSV.num 0)
      (fun s i => jAdd s (aread d i)) = .num 0 := by
    refine forRange_inv_const (P := fun s => s = JSV.num 0) rfl ?_
    intro st i h1 hin hp
    rw [hp, hent i (by omega) (by omega), jAdd_num_zero_zero]
  rw [hsum]
  refine forRange_inv (P := fun i (st : JArr) => ∀ j : Int, 14 ≤ j → j < i →
    aread st j = .num 0) (by omega) ?_ ?_
  · intro j hj0 hj1
    have hj14 : j = 14 := by omega
    subst hj14
    exact aread_aset_self _ _ _
  · intro st i hi hin2 hp j hj0 hj1
    by_cases hji : j = i
    · subst hji
      have hprev : aread st (j - 1) = .num 0 := hp (j - 1) (by omega) (by omega)
      rw [aread_aset_self, hprev, jDiv_zero_num (by norm_num), jSub_num_self,
        hent j (by omega) (by omega), jAdd_num_zero_zero]
    · rw [aread_aset_of_ne _ hji]
      exact hp j hj0 (by omega)

theorem jDiv_zero_zero : jDiv (.num 0) (.num 0) = .nan := by
  simp [jDiv, JSV.toArith]

theorem adxDX_replicate_nan {n : Nat} (q : ℚ) (hn : 14 < n) :
    ∀ j : Int, 14 ≤ j → j < (n : Int) →
      aread (adxDX (List.replicate n (JSV.num q)) (List.replicate n (JSV.num q))
        (List.replicate n (JSV.num q)) 14) j = .nan := by
  have hlen := adxDMTR_replicate_len (n := n) q
  have hzero := adxDMTR_replicate_zero (n := n) q
  have hsP := adxSmooth_zero hlen.1 hn (fun j h0 h1 => (hzero j h0 h1).1)
  have hsM := adxSmooth_zero hlen.2.1 hn (fun j h0 h1 => (hzero j h0 h1).2.1)
  have hsT := adxSmooth_zero hlen.2.2 hn (fun j h0 h1 => (hzero j h0 h1).2.2)
  unfold adxDX
  simp only [List.length_replicate]
  refine forRange_inv (P := fun i (st : JArr) => ∀ j : Int, 14 ≤ j → j < i →
    aread st j = .nan) (by omega) ?_ ?_
  · intro j hj0 hj1
    omega
  · intro st i hi hin hp j hj0 hj1
    by_cases hji : j = i
    · subst hji
      rw [aread_aset_self]
      unfold adxDXval adxPlusDI adxMinusDI
      rw [hsP j (by omega) (by omega), hsM j (by omega) (by omega),
        hsT j (by omega) (by omega), jDiv_zero_zero]
      rfl
    · rw [aread_aset_of_ne _ hji]
      exact hp j hj0 (by omega)

theorem calculateADX_replicate_nan {n : Nat} (q : ℚ) (hn : 28 ≤ n) :
    ∀ j : Int, 27 ≤ j → j < (n : Int) →
      aread (calculateADX (List.replicate n (JSV.num q)) (List.replicate n (JSV.num q))
        (List.replicate n (JSV.num q)) 14) j = .nan := by
  have hdx := adxDX_replicate_nan (n := n) q (by omega)
  unfold calculateADX
  simp only [List.length_replicate]
  have hsum : forRange ((14 : Nat) : Int) (2 * ((14 : Nat) : Int)) (JSV.num 0)
      (fun s i => jAdd s (aread (adxDX (List.replicate n (JSV.num q))
        (List.replicate n (JSV.num q)) (List.replicate n (JSV.num q)) 14) i)) = .nan := by
    refine forRange_inv (P := fun i (s : JSV) => (i = 14 ∧ s = JSV.num 0) ∨ s = JSV.nan)
      (by omega) (Or.inl ⟨rfl, rfl⟩) ?_ |>.resolve_left ?_
    · intro st i hi hin hp
      right
      rw [hdx i (by omega) (by omega), jAdd_nan_right]
    · intro hc
      omega
  rw [hsum]
  refine forRange_inv (P := fun i (st : JArr) => ∀ j : Int, 27 ≤ j → j < i →
    aread st j = .nan) (by omega) ?_ ?_
  · intro j hj0 hj1
    have hj27 : j = 27 := by omega
    subst hj27
    have h27 : 2 * (((14 : Nat) : Int)) - 1 = 27 := by omega
    rw [h27, aread_aset_self, jDiv_nan_left]
  · intro st i hi hin hp j hj0 hj1
    by_cases hji : j = i
    · subst hji
      rw [aread_aset_self, hdx j (by omega) (by omega), jAdd_nan_right, jDiv_nan_left]
    · rw [aread_aset_of_ne _ hji]
      exact hp j hj0 (by omega)

theorem trendRegimeAdx_const {n : Nat} (q : ℚ) (hn : 28 ≤ n) :
    trendRegimeAdx (List.replicate n (cbar q)) = .num 0 := by
  unfold trendRegimeAdx
  rw [highsQ_replicate, lowsQ_replicate, closesQ_replicate, numsOf_replicate]
  have hidx : lastIdx (List.replicate n (cbar q)) = (n : Int) - 1 := by
    simp [lastIdx, List.length_replicate]
  rw [hidx, calculateADX_replicate_nan q hn ((n : Int) - 1) (by omega) (by omega)]
  rfl

theorem ema_entry_null {data : List JSV} {p : Nat} {j : Int} (h0 : 0 ≤ j)
    (hj : j < (p : Int) - 1) (hlen : j < (data.length : Int)) :
    aread (calculateEMA data p) j = .null := by
  unfold calculateEMA
  split
  · exact aread_mkFilled_of_mem _ _ h0 hlen
  · rename_i hge
    refine forRange_inv_const (P := fun (a : JArr) => aread a j = .null) ?_ ?_
    · simp only []
      rw [aread_aset_of_ne _ (by omega)]
      exact aread_mkFilled_of_mem _ _ h0 hlen
    · intro st i hi hin hp
      rw [aread_aset_of_ne _ (by omega)]
      exact hp

theorem trendRegimeSlope_k4c : trendRegimeSlope k4c = 0 := by
  unfold trendRegimeSlope
  have hidx : lastIdx k4c - 1 = 198 := by
    simp [lastIdx, k4c, List.length_replicate]
  have hnull : aread (calculateEMA (numsOf (closesQ k4c)) 200) (lastIdx k4c - 1) =
      .null := by
    rw [hidx]
    refine ema_entry_null (by omega) (by omega) ?_
    simp only [k4c, closesQ_replicate, numsOf_replicate, List.length_replicate]
    norm_num
  simp only []
  rw [hnull]
  simp [jor0, jTruthy]

theorem trendRegime_k4c : trendRegime k4c = "STRONG_RANGE" := by
  unfold trendRegime
  rw [show trendRegimeAdx k4c = .num 0 from trendRegimeAdx_const 5 (by omega),
    trendRegimeSlope_k4c]
  with_unfolding_all decide

/-- C10, witness: the range-tie theorem applied to a constant 200-bar 4h
feed (regime STRONG_RANGE) and a constant 50-bar 15m feed, where the ATR is
0 and every zone boundary equals the price, so the two distances tie and
the buy zone is selected with direction LONG and rr = 1.5. -/
theorem c10_witness :
    runTrendRegimeStrategy "ETHUSDT" k4c k15c =
      some ⟨"ETHUSDT", trendRegime k4c, trendPrice k15c, "LONG",
            (trendZones "ETHUSDT" k15c).2.2.1, (trendZones "ETHUSDT" k15c).2.2.2,
            (trendZones "ETHUSDT" k15c).2.2.1 - trendAtr k15c,
            (trendZones "ETHUSDT" k15c).2.2.2 +
              |(trendZones "ETHUSDT" k15c).2.2.2 -
                ((trendZones "ETHUSDT" k15c).2.2.1 - trendAtr k15c)| * (3/2),
            .num (3/2)⟩ :=
  c10_range_tie "ETHUSDT" k4c k15c
    (by simp [k4c, k15c, List.length_replicate])
    (by rw [trendRegime_k4c]; with_unfolding_all decide)
    (by rw [trendRegime_k4c]; with_unfolding_all decide)
    (by with_unfolding_all decide)

theorem jAdd_num (a b : ℚ) : jAdd (.num a) (.num b) = .num (a + b) := by
  simp [jAdd, JSV.toArith]

theorem jSub_num (a b : ℚ) : jSub (.num a) (.num b) = .num (a - b) := by
  simp [jSub, jAdd, jNeg, JSV.toArith, sub_eq_add_neg]

theorem jMul_num (a b : ℚ) : jMul (.num a) (.num b) = .num (a * b) := by
  simp [jMul, JSV.toArith]

theorem jDiv_num {b : ℚ} (a : ℚ) (hb : b ≠ 0) : jDiv (.num a) (.num b) = .num (a / b) := by
  simp [jDiv, JSV.toArith, hb]

theorem adxDX_read (high low close : List JSV) (p : Nat) {i : Int}
    (hp : (p : Int) ≤ i) (hi : i < (close.length : Int)) :
    aread (adxDX high low close p) i = adxDXval high low close p i := by
  unfold adxDX
  have key := @forRange_inv JArr (p : Int)
    (fun k (st : JArr) => ∀ j : Int, (p : Int) ≤ j → j < k →
      aread st j = adxDXval high low close p j)
    (fun dx i => aset dx i (adxDXval high low close p i))
    (mkFilled close.length .null)
    ((close.length : Int))
    (by omega) (fun j h0 h1 => by omega) ?_
  · exact key i hp hi
  · intro st k hk hkn hpk j hj0 hj1
    by_cases hji : j = k
    · subst hji
      exact aread_aset_self _ _ _
    · rw [aread_aset_of_ne _ hji]
      exact hpk j hj0 (by omega)

/-- C4, counterexample: the claim "no division in the DI/DX/ADX pipeline
(including when the smoothed true range is zero, as for a constant price
series) yields a fault or an undefined defined-entry" is false: on a
constant 30-bar series the smoothed TR is 0, the DI divisions are 0/0 = NaN,
the `diSum === 0` sentinel does not fire (NaN ≠ 0), and the ADX output
carries NaN — a defined (non-null) entry that is not a number. -/
theorem c4_counterexample :
    aread (calculateADX (List.replicate 30 (JSV.num 5)) (List.replicate 30 (JSV.num 5))
      (List.replicate 30 (JSV.num 5)) 14) 29 = JSV.nan ∧
    JSV.nan ≠ JSV.null ∧ ∀ x : ℚ, JSV.nan ≠ JSV.num x := by
  refine ⟨?_, by decide, fun x => by simp⟩
  exact calculateADX_replicate_nan 5 (by omega) 29 (by omega) (by omega)

/-- C4, amended: the divisions in the DI/DX/ADX pipeline never fault (the
embedding is total), and the `diSum === 0` sentinel works as documented:
whenever +DI + -DI equals 0 the DX entry is exactly 0, and whenever the
smoothed TR at an index is a non-zero number the DX entry there is a finite
number.  But when the smoothed true range is 0 — e.g. on any constant price
series — the DI divisions produce NaN, the sentinel does not fire, and the
DX and ADX entries are NaN: defined entries that are not numbers. -/
theorem c4_amended :
    (∀ (high low close : List JSV) (p : Nat) (i : Int),
      (p : Int) ≤ i → i < (close.length : Int) →
      jAdd (adxPlusDI high low close p i) (adxMinusDI high low close p i) = .num 0 →
      aread (adxDX high low close p) i = .num 0) ∧
    (∀ (high low close : List JSV) (p : Nat) (i : Int),
      (p : Int) ≤ i → i < (close.length : Int) →
      ∀ a b t : ℚ, t ≠ 0 →
      aread (adxSmooth (adxDMTR high low close).1 p) i = .num a →
      aread (adxSmooth (adxDMTR high low close).2.1 p) i = .num b →
      aread (adxSmooth (adxDMTR high low close).2.2 p) i = .num t →
      ∃ v : ℚ, aread (adxDX high low close p) i = .num v) ∧
    (∀ (n : Nat) (q : ℚ), 28 ≤ n → ∀ j : Int, 27 ≤ j → j < (n : Int) →
      aread (calculateADX (List.replicate n (JSV.num q)) (List.replicate n (JSV.num q))
        (List.replicate n (JSV.num q)) 14) j = .nan) := by
  refine ⟨?_, ?_, fun n q hn => calculateADX_replicate_nan q hn⟩
  · intro high low close p i hp hi hsum
    rw [adxDX_read high low close p hp hi]
    unfold adxDXval
    simp only []
    rw [if_pos hsum]
  · intro high low close p i hp hi a b t ht ha hb htt
    rw [adxDX_read high low close p hp hi]
    unfold adxDXval adxPlusDI adxMinusDI
    simp only []
    rw [ha, hb, htt, jDiv_num a ht, jDiv_num b ht, jMul_num, jMul_num, jAdd_num]
    by_cases hz : a / t * 100 + b / t * 100 = 0
    · rw [if_pos (by rw [hz])]
      exact ⟨0, rfl⟩
    · rw [if_neg (by intro hc; exact hz (by injection hc))]
      rw [jSub_num, jAbs]
      simp only [JSV.toArith]
      rw [jDiv_num _ (by intro hc; exact hz (by exact_mod_cast hc)), jMul_num]
      exact ⟨_, rfl⟩

/-- C4, witness: the amended theorem applied to a 30-bar series with
constant highs/lows (zero directional movement, so +DI + -DI = 0 and
DX = 0 with TR = 1), and to the constant series NaN case. -/
theorem c4_witness :
    aread (adxDX (List.replicate 30 (JSV.num 5)) (List.replicate 30 (JSV.num 5))
      (List.replicate 30 (JSV.num 4)) 14) 20 = .num 0 ∧
    aread (calculateADX (List.replicate 30 (JSV.num 7)) (List.replicate 30 (JSV.num 7))
      (List.replicate 30 (JSV.num 7)) 14) 28 = .nan := by
  constructor
  · exact c4_amended.1 _ _ _ 14 20 (by norm_num)
      (by simp [List.length_replicate])
      (by with_unfolding_all decide)
  · exact c4_amended.2.2 30 7 (by norm_num) 28 (by norm_num) (by norm_num)

theorem getD_map_num (data : List ℚ) (n : Nat) (h : n < data.length) :
    (numsOf data).getD n .undef = .num (data.getD n 0) := by
  induction data generalizing n with
  | nil => simp at h
  | cons a l ih =>
      cases n with
      | zero => rfl
      | succ m =>
          rw [show numsOf (a :: l) = JSV.num a :: numsOf l from rfl]
          rw [List.getD_cons_succ, List.getD_cons_succ]
          exact ih m (by simp at h; omega)

theorem dread_numsOf_eq (data : List ℚ) {i : Int} (h0 : 0 ≤ i)
    (h1 : i < (data.length : Int)) :
    dread (numsOf data) i = .num (data.getD i.toNat 0) := by
  unfold dread
  rw [if_pos h0]
  exact getD_map_num data i.toNat (by omega)

/-- A value an RSI output array may hold: the `null` warm-up fill, an
out-of-range `undefined` read, or a number in [0, 100]. -/
def RSIE (v : JSV) : Prop :=
  v = .null ∨ v = .undef ∨ ∃ x : ℚ, 0 ≤ x ∧ x ≤ 100 ∧ v = .num x

theorem rsiValOf_num {g l : ℚ} (hg : 0 ≤ g) (hl : 0 ≤ l) :
    ∃ x : ℚ, 0 ≤ x ∧ x ≤ 100 ∧ rsiValOf (.num g, .num l) = .num x := by
  by_cases h0 : l = 0
  · subst h0
    refine ⟨100, by norm_num, by norm_num, ?_⟩
    simp [rsiValOf]
  · have hlpos : 0 < l := lt_of_le_of_ne hl (Ne.symm h0)
    have hne : (JSV.num l) ≠ JSV.num 0 := fun hc => h0 (by injection hc)
    have hred : rsiValOf (.num g, .num l) =
        jSub (.num 100) (jDiv (.num 100) (jAdd (.num 1) (jDiv (.num g) (.num l)))) := by
      unfold rsiValOf
      simp only []
      exact if_neg hne
    have hql : 0 ≤ g / l := div_nonneg hg hl
    have hdpos : (0 : ℚ) < 1 + g / l := by linarith
    rw [hred, jDiv_num g h0, jAdd_num, jDiv_num 100 (ne_of_gt hdpos), jSub_num]
    refine ⟨100 - 100 / (1 + g / l), ?_, ?_, rfl⟩
    · have hds : 100 / (1 + g / l) ≤ 100 := by
        apply div_le_self (by norm_num)
        linarith
      linarith
    · have hdd : 0 < (100 : ℚ) / (1 + g / l) := div_pos (by norm_num) hdpos
      linarith

theorem rsiSeedFold_num (data : List ℚ) (p : Nat) (hlen : p < data.length) :
    ∃ g l : ℚ, 0 ≤ g ∧ 0 ≤ l ∧
      forRange 1 ((p : Int) + 1) (JSV.num 0, JSV.num 0)
        (fun gl i =>
          let change := jSub (dread (numsOf data) i) (dread (numsOf data) (i - 1))
          if jGtB change (.num 0) then (jAdd gl.1 change, gl.2)
          else (gl.1, jSub gl.2 change)) = (.num g, .num l) := by
  refine forRange_inv_const (P := fun (gl : JSV × JSV) =>
    ∃ g l : ℚ, 0 ≤ g ∧ 0 ≤ l ∧ gl = (JSV.num g, JSV.num l))
    ⟨0, 0, le_rfl, le_rfl, rfl⟩ ?_
  intro st i hi1 hi2 hst
  obtain ⟨g, l, hg, hl, hst⟩ := hst
  subst hst
  simp only []
  have hia : dread (numsOf data) i = .num (data.getD i.toNat 0) :=
    dread_numsOf_eq data (by omega) (by omega)
  have hib : dread (numsOf data) (i - 1) = .num (data.getD (i - 1).toNat 0) :=
    dread_numsOf_eq data (by omega) (by omega)
  rw [hia, hib, jSub_num]
  set c : ℚ := data.getD i.toNat 0 - data.getD (i - 1).toNat 0 with hc
  by_cases hcp : jGtB (JSV.num c) (JSV.num 0) = true
  · rw [if_pos hcp, jAdd_num]
    have hgt : jGtB (JSV.num c) (JSV.num 0) = decide ((0 : ℚ) < c) := rfl
    rw [hgt] at hcp
    have hcpos : (0 : ℚ) < c := of_decide_eq_true hcp
    exact ⟨g + c, l, by linarith, hl, rfl⟩
  · rw [if_neg hcp, jSub_num]
    have hgt : jGtB (JSV.num c) (JSV.num 0) = decide ((0 : ℚ) < c) := rfl
    rw [hgt] at hcp
    have hcle : c ≤ 0 := by simpa using hcp
    exact ⟨g, l - c, hg, by linarith, rfl⟩

theorem rsiSeed_num (data : List ℚ) (p : Nat) (hp : 1 ≤ p)
    (hlen : p < data.length) :
    ∃ g l : ℚ, 0 ≤ g ∧ 0 ≤ l ∧ (rsiSeed (numsOf data) p).1 = .num g ∧
      (rsiSeed (numsOf data) p).2 = .num l := by
  obtain ⟨g, l, hg, hl, hfold⟩ := rsiSeedFold_num data p hlen
  have hpq : ((p : ℚ)) ≠ 0 := Nat.cast_ne_zero.mpr (by omega)
  have heq : rsiSeed (numsOf data) p = (.num (g / (p : ℚ)), .num (l / (p : ℚ))) := by
    unfold rsiSeed
    simp only []
    rw [hfold]
    simp only []
    rw [jDiv_num g hpq, jDiv_num l hpq]
  exact ⟨g / (p : ℚ), l / (p : ℚ), div_nonneg hg (Nat.cast_nonneg p),
    div_nonneg hl (Nat.cast_nonneg p), by rw [heq], by rw [heq]⟩

theorem rsiSeedFold_loss_zero (data : List ℚ) (p : Nat) (hlen : p < data.length)
    (hmono : ∀ k : Nat, k < p → data.getD k 0 ≤ data.getD (k + 1) 0) :
    (forRange 1 ((p : Int) + 1) (JSV.num 0, JSV.num 0)
        (fun gl i =>
          let change := jSub (dread (numsOf data) i) (dread (numsOf data) (i - 1))
          if jGtB change (.num 0) then (jAdd gl.1 change, gl.2)
          else (gl.1, jSub gl.2 change))).2 = JSV.num 0 := by
  refine forRange_inv_const (P := fun (gl : JSV × JSV) => gl.2 = JSV.num 0) rfl ?_
  intro st i hi1 hi2 hst
  simp only []
  have hia : dread (numsOf data) i = .num (data.getD i.toNat 0) :=
    dread_numsOf_eq data (by omega) (by omega)
  have hib : dread (numsOf data) (i - 1) = .num (data.getD (i - 1).toNat 0) :=
    dread_numsOf_eq data (by omega) (by omega)
  rw [hia, hib, jSub_num]
  set c : ℚ := data.getD i.toNat 0 - data.getD (i - 1).toNat 0 with hc
  by_cases hcp : jGtB (JSV.num c) (JSV.num 0) = true
  · rw [if_pos hcp]
    exact hst
  · rw [if_neg hcp]
    simp only []
    rw [hst, jSub_num]
    have hgt : jGtB (JSV.num c) (JSV.num 0) = decide ((0 : ℚ) < c) := rfl
    rw [hgt] at hcp
    have hle : c ≤ 0 := by simpa using hcp
    have hge : (0 : ℚ) ≤ c := by
      rw [hc]
      have hk := hmono (i - 1).toNat (by omega)
      have hkk : (i - 1).toNat + 1 = i.toNat := by omega
      rw [hkk] at hk
      linarith
    have hc0 : (0 : ℚ) - c = 0 := by linarith
    rw [hc0]

theorem rsiSeed_loss_zero (data : List ℚ) (p : Nat) (hp : 1 ≤ p)
    (hlen : p < data.length)
    (hmono : ∀ k : Nat, k < p → data.getD k 0 ≤ data.getD (k + 1) 0) :
    (rsiSeed (numsOf data) p).2 = .num 0 := by
  have hpq : ((p : ℚ)) ≠ 0 := Nat.cast_ne_zero.mpr (by omega)
  unfold rsiSeed
  simp only []
  rw [rsiSeedFold_loss_zero data p hlen hmono, jDiv_num 0 hpq, zero_div]

theorem rsiStateAt_inv (data : List ℚ) (p : Nat) (hp : 1 ≤ p)
    (hlen : p < data.length) {m : Int} (hm : m ≤ (data.length : Int)) :
    (∃ g l : ℚ, 0 ≤ g ∧ 0 ≤ l ∧ (rsiStateAt (numsOf data) p m).1 = .num g ∧
      (rsiStateAt (numsOf data) p m).2.1 = .num l) ∧
    ∀ j : Int, RSIE (aread (rsiStateAt (numsOf data) p m).2.2 j) := by
  unfold rsiStateAt
  simp only []
  refine forRange_inv_const (P := fun (st : JSV × JSV × JArr) =>
    (∃ g l : ℚ, 0 ≤ g ∧ 0 ≤ l ∧ st.1 = .num g ∧ st.2.1 = .num l) ∧
    ∀ j : Int, RSIE (aread st.2.2 j)) ?_ ?_
  · obtain ⟨g, l, hg, hl, hg1, hl1⟩ := rsiSeed_num data p hp hlen
    refine ⟨⟨g, l, hg, hl, hg1, hl1⟩, ?_⟩
    intro j
    simp only []
    by_cases hj : j = (p : Int)
    · subst hj
      rw [aread_aset_self, hg1, hl1]
      obtain ⟨x, hx0, hx1, hx⟩ := rsiValOf_num hg hl
      exact Or.inr (Or.inr ⟨x, hx0, hx1, hx⟩)
    · rw [aread_aset_of_ne _ hj]
      simp only [aread, mkFilled]
      split
      · exact Or.inl rfl
      · exact Or.inr (Or.inl rfl)
  · intro st i hi1 hi2 hP
    obtain ⟨⟨g, l, hg, hl, hg1, hl1⟩, hE⟩ := hP
    unfold rsiStep
    simp only []
    have hia : dread (numsOf data) i = .num (data.getD i.toNat 0) :=
      dread_numsOf_eq data (by omega) (by omega)
    have hib : dread (numsOf data) (i - 1) = .num (data.getD (i - 1).toNat 0) :=
      dread_numsOf_eq data (by omega) (by omega)
    rw [hia, hib, jSub_num, hg1, hl1]
    set c : ℚ := data.getD i.toNat 0 - data.getD (i - 1).toNat 0 with hc
    have hgain : ∃ a : ℚ, 0 ≤ a ∧
        (if jGtB (JSV.num c) (JSV.num 0) then JSV.num c else JSV.num 0) = JSV.num a := by
      by_cases hcp : jGtB (JSV.num c) (JSV.num 0) = true
      · refine ⟨c, ?_, if_pos hcp⟩
        have hgt : jGtB (JSV.num c) (JSV.num 0) = decide ((0 : ℚ) < c) := rfl
        rw [hgt] at hcp
        exact le_of_lt (of_decide_eq_true hcp)
      · exact ⟨0, le_rfl, if_neg hcp⟩
    have hloss : ∃ b : ℚ, 0 ≤ b ∧
        (if jLtB (JSV.num c) (JSV.num 0) then jNeg (JSV.num c) else JSV.num 0) = JSV.num b := by
      by_cases hcp : jLtB (JSV.num c) (JSV.num 0) = true
      · refine ⟨-c, ?_, ?_⟩
        · have hlt : jLtB (JSV.num c) (JSV.num 0) = decide (c < (0 : ℚ)) := rfl
          rw [hlt] at hcp
          have hcc := of_decide_eq_true hcp
          linarith
        · rw [if_pos hcp]
          rfl
      · exact ⟨0, le_rfl, if_neg hcp⟩
    obtain ⟨a, ha, hae⟩ := hgain
    obtain ⟨b, hb, hbe⟩ := hloss
    rw [hae, hbe]
    have hpq : ((p : ℚ)) ≠ 0 := Nat.cast_ne_zero.mpr (by omega)
    have hpm1 : (0 : ℚ) ≤ (p : ℚ) - 1 := by
      have hcast : (1 : ℚ) ≤ (p : ℚ) := by exact_mod_cast hp
      linarith
    have hAG : jDiv (jAdd (jMul (JSV.num g) (JSV.num ((p : ℚ) - 1))) (JSV.num a))
        (JSV.num (p : ℚ)) = JSV.num ((g * ((p : ℚ) - 1) + a) / (p : ℚ)) := by
      rw [jMul_num, jAdd_num, jDiv_num _ hpq]
    have hAL : jDiv (jAdd (jMul (JSV.num l) (JSV.num ((p : ℚ) - 1))) (JSV.num b))
        (JSV.num (p : ℚ)) = JSV.num ((l * ((p : ℚ) - 1) + b) / (p : ℚ)) := by
      rw [jMul_num, jAdd_num, jDiv_num _ hpq]
    rw [hAG, hAL]
    have hG : 0 ≤ (g * ((p : ℚ) - 1) + a) / (p : ℚ) :=
      div_nonneg (add_nonneg (mul_nonneg hg hpm1) ha) (Nat.cast_nonneg p)
    have hL : 0 ≤ (l * ((p : ℚ) - 1) + b) / (p : ℚ) :=
      div_nonneg (add_nonneg (mul_nonneg hl hpm1) hb) (Nat.cast_nonneg p)
    refine ⟨⟨_, _, hG, hL, rfl, rfl⟩, ?_⟩
    intro j
    by_cases hj : j = i
    · subst hj
      rw [aread_aset_self]
      obtain ⟨x, hx0, hx1, hx⟩ := rsiValOf_num hG hL
      exact Or.inr (Or.inr ⟨x, hx0, hx1, hx⟩)
    · rw [aread_aset_of_ne _ hj]
      exact hE j

theorem forRange_split {σ : Type _} {s k m : Int} (hsk : s ≤ k) (hkm : k ≤ m)
    {init : σ} {f : σ → Int → σ} :
    forRange s m init f = forRange k m (forRange s k init f) f := by
  suffices key : ∀ (t : Nat) (n : Int), n = k + (t : Int) →
      forRange s n init f = forRange k n (forRange s k init f) f by
    exact key (m - k).toNat m (by omega)
  intro t
  induction t with
  | zero =>
      intro n hn
      have hnk : n = k := by omega
      subst hnk
      rw [forRange_eq_init le_rfl]
  | succ u ih =>
      intro n hn
      have h1 : n = (k + (u : Int)) + 1 := by omega
      subst h1
      rw [forRange_succ (by omega), forRange_succ (by omega), ih (k + (u : Int)) rfl]

theorem forRange_frozen (data : List JSV) (p : Nat) {i k m : Int}
    (hik : i < k) (st0 : JSV × JSV × JArr) :
    aread (forRange k m st0 (rsiStep data p)).2.2 i = aread st0.2.2 i := by
  refine forRange_inv_const (P := fun (st : JSV × JSV × JArr) =>
    aread st.2.2 i = aread st0.2.2 i) rfl ?_
  intro st j hj1 hj2 hP
  unfold rsiStep
  simp only []
  rw [aread_aset_of_ne _ (by omega)]
  exact hP

theorem rsiStateAt_entry_stable (data : List JSV) (p : Nat) {i m : Int}
    (hpi : (p : Int) ≤ i) (him : i + 1 ≤ m) :
    aread (rsiStateAt data p m).2.2 i = aread (rsiStateAt data p (i + 1)).2.2 i := by
  unfold rsiStateAt
  simp only []
  rw [forRange_split (s := (p : Int) + 1) (k := i + 1) (by omega) him]
  exact forRange_frozen data p (by omega) _

theorem rsi_entry_eq (data : List JSV) (p : Nat) {i : Int}
    (hpi : (p : Int) ≤ i) (hil : i < (data.length : Int))
    (hpl : p < data.length) :
    aread (calculateRSI data p) i =
      rsiValOf ((rsiStateAt data p (i + 1)).1, (rsiStateAt data p (i + 1)).2.1) := by
  unfold calculateRSI
  rw [if_neg (by omega)]
  rw [rsiStateAt_entry_stable data p hpi (by omega)]
  rcases eq_or_lt_of_le hpi with heq | hlt
  · rw [← heq]
    have hstate : rsiStateAt data p ((p : Int) + 1) =
        ((rsiSeed data p).1, (rsiSeed data p).2,
          aset (mkFilled data.length .null) (p : Int)
            (rsiValOf ((rsiSeed data p).1, (rsiSeed data p).2))) := by
      unfold rsiStateAt
      simp only []
      exact forRange_eq_init le_rfl _ _
    rw [hstate]
    simp only []
    rw [aread_aset_self]
  · have hstep : rsiStateAt data p (i + 1) = rsiStep data p (rsiStateAt data p i) i := by
      unfold rsiStateAt
      simp only []
      exact forRange_succ (by omega) _ _
    rw [hstep]
    unfold rsiStep
    simp only []
    rw [aread_aset_self]

theorem rsi_entry_null (data : List JSV) (p : Nat) {j : Int} (h0 : 0 ≤ j)
    (hjp : j < (p : Int)) (hjl : j < (data.length : Int)) :
    aread (calculateRSI data p) j = .null := by
  unfold calculateRSI
  split
  · exact aread_mkFilled_of_mem _ _ h0 hjl
  · unfold rsiStateAt
    simp only []
    refine forRange_inv_const (P := fun (st : JSV × JSV × JArr) =>
      aread st.2.2 j = .null) ?_ ?_
    · simp only []
      rw [aread_aset_of_ne _ (by omega)]
      exact aread_mkFilled_of_mem _ _ h0 hjl
    · intro st k hk1 hk2 hP
      unfold rsiStep
      simp only []
      rw [aread_aset_of_ne _ (by omega)]
      exact hP

/-- C6: counterexample.  On the two-element series [1, 2] with period 2 the
length guard (`length < period`) does not fire, the seed pass reads past the
end of the input, and `calculateRSI` stores NaN at index 2 of the (extended,
length-3) output array: a stored entry that is neither `null` nor
`undefined` nor any number, so it does not lie in [0, 100]. -/
theorem c6_counterexample :
    (calculateRSI [JSV.num 1, JSV.num 2] 2).len = 3 ∧
    aread (calculateRSI [JSV.num 1, JSV.num 2] 2) 2 = JSV.nan ∧
    JSV.nan ≠ JSV.null ∧ JSV.nan ≠ JSV.undef ∧ ∀ x : ℚ, JSV.nan ≠ JSV.num x :=
  ⟨by with_unfolding_all decide, by with_unfolding_all decide, by decide, by decide,
    fun x h => JSV.noConfusion h⟩

/-- C6: amended RSI value claims, restricted to numeric input series with
`1 ≤ period` and `length ≠ period`.  (1) Every entry of the output is the
`null` warm-up fill, an out-of-range `undefined`, or a number in [0, 100].
(2) For `period ≤ i < length` the entry at `i` equals 100 exactly when the
smoothed average loss after processing index `i` is 0.  (3) If the series is
non-decreasing over the seed window then the seed entry (index `period`)
is 100.  (4) Entries at indices below `period` are `null`. -/
theorem c6_amended :
    (∀ (data : List ℚ) (p : Nat), 1 ≤ p → data.length ≠ p →
      ∀ j : Int, RSIE (aread (calculateRSI (numsOf data) p) j)) ∧
    (∀ (data : List ℚ) (p : Nat) (i : Int), 1 ≤ p → p < data.length →
      (p : Int) ≤ i → i < (data.length : Int) →
      (aread (calculateRSI (numsOf data) p) i = .num 100 ↔
        (rsiStateAt (numsOf data) p (i + 1)).2.1 = .num 0)) ∧
    (∀ (data : List ℚ) (p : Nat), 1 ≤ p → p < data.length →
      (∀ k : Nat, k < p → data.getD k 0 ≤ data.getD (k + 1) 0) →
      aread (calculateRSI (numsOf data) p) (p : Int) = .num 100) ∧
    (∀ (data : List JSV) (p : Nat) (j : Int), 0 ≤ j → j < (p : Int) →
      j < (data.length : Int) → aread (calculateRSI data p) j = .null) := by
  have hnl : ∀ data : List ℚ, (numsOf data).length = data.length := by
    intro data
    simp [numsOf]
  refine ⟨?_, ?_, ?_, ?_⟩
  · intro data p hp hne j
    unfold calculateRSI
    rw [hnl data]
    rcases Nat.lt_or_ge data.length p with hlt | hge
    · rw [if_pos hlt]
      simp only [aread, mkFilled]
      split
      · exact Or.inl rfl
      · exact Or.inr (Or.inl rfl)
    · have hplen : p < data.length := by omega
      rw [if_neg (by omega)]
      exact (rsiStateAt_inv data p hp hplen le_rfl).2 j
  · intro data p i hp hplen hpi hil
    obtain ⟨⟨g, l, hg, hl, hg1, hl1⟩, hE⟩ :=
      rsiStateAt_inv data p hp hplen (m := i + 1) (by omega)
    rw [rsi_entry_eq (numsOf data) p hpi (by rw [hnl data]; exact hil)
      (by rw [hnl data]; exact hplen)]
    rw [hg1, hl1]
    constructor
    · intro hv
      by_cases h0 : l = 0
      · rw [h0]
      · exfalso
        have hlpos : 0 < l := lt_of_le_of_ne hl (Ne.symm h0)
        have hne2 : (JSV.num l) ≠ JSV.num 0 := fun hc => h0 (by injection hc)
        have hred : rsiValOf (.num g, .num l) =
            jSub (.num 100) (jDiv (.num 100) (jAdd (.num 1) (jDiv (.num g) (.num l)))) := by
          unfold rsiValOf
          simp only []
          exact if_neg hne2
        have hql : 0 ≤ g / l := div_nonneg hg hl
        have hdpos : (0 : ℚ) < 1 + g / l := by linarith
        rw [hred, jDiv_num g h0, jAdd_num, jDiv_num 100 (ne_of_gt hdpos), jSub_num] at hv
        have hx : (100 : ℚ) - 100 / (1 + g / l) = 100 := by injection hv
        have hppos : 0 < (100 : ℚ) / (1 + g / l) := div_pos (by norm_num) hdpos
        linarith
    · intro hv
      have h0 : l = 0 := by injection hv
      subst h0
      simp [rsiValOf]
  · intro data p hp hplen hmono
    rw [rsi_entry_eq (numsOf data) p le_rfl
      (by rw [hnl data]; exact_mod_cast Nat.cast_lt.mpr hplen)
      (by rw [hnl data]; exact hplen)]
    have hstate : rsiStateAt (numsOf data) p ((p : Int) + 1) =
        ((rsiSeed (numsOf data) p).1, (rsiSeed (numsOf data) p).2,
          aset (mkFilled (numsOf data).length .null) (p : Int)
            (rsiValOf ((rsiSeed (numsOf data) p).1, (rsiSeed (numsOf data) p).2))) := by
      unfold rsiStateAt
      simp only []
      exact forRange_eq_init le_rfl _ _
    rw [hstate]
    simp only []
    rw [rsiSeed_loss_zero data p hp hplen hmono]
    simp [rsiValOf]
  · intro data p j h0 hjp hjl
    exact rsi_entry_null data p h0 hjp hjl

/-- C6: witness.  The amended RSI properties instantiated on the
non-decreasing series [1, 2, 4] with period 2: every entry is in range
(e.g. the out-of-range read at 7), the 100-iff-zero-average-loss
equivalence at index 2, the seed entry equal to 100, and the `null`
warm-up entry at index 0. -/
theorem c6_witness :
    RSIE (aread (calculateRSI (numsOf [1, 2, 4]) 2) 7) ∧
    (aread (calculateRSI (numsOf [1, 2, 4]) 2) 2 = JSV.num 100 ↔
      (rsiStateAt (numsOf [1, 2, 4]) 2 ((2 : Int) + 1)).2.1 = JSV.num 0) ∧
    aread (calculateRSI (numsOf [1, 2, 4]) 2) (((2 : Nat)) : Int) = JSV.num 100 ∧
    aread (calculateRSI (numsOf [1, 2, 4]) 2) 0 = JSV.null :=
  ⟨c6_amended.1 [1, 2, 4] 2 (by decide) (by decide) 7,
    c6_amended.2.1 [1, 2, 4] 2 2 (by decide) (by decide) (by decide) (by decide),
    c6_amended.2.2.1 [1, 2, 4] 2 (by decide) (by decide) (by with_unfolding_all decide),
    c6_amended.2.2.2 (numsOf [1, 2, 4]) 2 0 (by decide) (by decide) (by decide)⟩
